import Mathlib

/-!
Signaling relay and peer negotiation of the video-conferencing application.

A shallow embedding of
* `webrtc-signal-server/index.js`: the socket.io relay (room registry; the join-room, signal,
  leave-room and disconnect handlers);
* `webrtc-meet/src/App.jsx`: the client's role derivation (`isPolite`), its `signal` and
  `negotiationneeded` handlers and `closePeer`, run against an abstract peer-connection
  transport. A handler is run to completion: what other
  handlers do between two of its `await`s is not part of the model.

JavaScript values that the handlers test for truthiness or compare with `===` are kept as
`JsVal`; maps (`Map`, plain objects used as dictionaries) are insertion-ordered association
lists; socket.io is modelled by its documented behaviour: every socket is a member of the room
named by its own id, `socket.to(room)` reaches the members of `room` except the sender, and
`io.to(room)` reaches all members of `room`.
-/

set_option autoImplicit false

namespace WebRTCMeet

/-! ## JavaScript values -/

/-- The JavaScript values a socket.io payload field can carry in this program. -/
inductive JsVal where
  | undefined
  | null
  | bool (b : Bool)
  | num (n : Int)
  | str (s : String)
  deriving DecidableEq, Repr

/-- JavaScript truthiness (`!!v`): `undefined`, `null`, `false`, `0` and `""` are falsy. -/
def JsVal.truthy : JsVal → Bool
  | .undefined => false
  | .null => false
  | .bool b => b
  | .num n => n != 0
  | .str s => s != ""

/-- The expression `a || b`. -/
def JsVal.or (a b : JsVal) : JsVal := if a.truthy then a else b

/-! ## Insertion-ordered maps (`Map`, dictionary objects) -/

/-- `m.has(k)`. -/
def mapHas {β : Type} (m : List (String × β)) (k : String) : Bool :=
  m.any (fun e => e.1 == k)

/-- `m.get(k)`; `none` stands for `undefined`. -/
def mapGet {β : Type} : List (String × β) → String → Option β
  | [], _ => none
  | e :: es, k => if e.1 = k then some e.2 else mapGet es k

/-- `m.set(k, v)`: an existing key keeps its position, a new key goes last. -/
def mapSet {β : Type} : List (String × β) → String → β → List (String × β)
  | [], k, v => [(k, v)]
  | e :: es, k, v => if e.1 = k then (k, v) :: es else e :: mapSet es k v

/-- `m.delete(k)`. -/
def mapDelete {β : Type} (m : List (String × β)) (k : String) : List (String × β) :=
  m.filter (fun e => e.1 != k)

/-! ## Relay state -/

/-- A value of the `rooms` registry: `{ isPrivate, token }`, `token` being a string or `null`. -/
structure RoomInfo where
  isPrivate : Bool
  token : Option String
  deriving DecidableEq, Repr

/-- The fields of `socket.data` the handlers use. -/
structure SocketData where
  roomId : JsVal
  name : JsVal
  deriving DecidableEq, Repr

/-- An ICE candidate, opaque to this program. -/
structure Candidate where
  candidate : String
  deriving DecidableEq, Repr

/-- The `type` of a session description. -/
inductive SdpType where
  | offer
  | answer
  | pranswer
  | rollback
  deriving DecidableEq, Repr

/-- A session description `{ type, sdp }`. -/
structure Description where
  type : SdpType
  sdp : String
  deriving DecidableEq, Repr

/-- The `data` field of a `signal` message, by its `type` field: `untyped` has no (or a falsy)
`type`, `unknownType` a `type` that is none of the five the client handles. The `description`
field is an object or `null`. -/
inductive SignalData where
  | untyped
  | chat (name : JsVal) (text : JsVal)
  | mediaStateRequest
  | mediaState (micOn : JsVal) (camOn : JsVal)
  | description (description : Option Description)
  | candidate (candidate : Candidate)
  | unknownType
  deriving DecidableEq, Repr

/-- A message the relay emits to a client. -/
inductive Msg where
  | joinDenied (message : String)
  | userJoined (socketId : String) (name : JsVal)
  | roomUsers (others : List (String × JsVal)) (roomInfo : RoomInfo)
  | signal (sender : String) (data : SignalData)
  | userLeft (socketId : String) (name : JsVal)
  deriving DecidableEq, Repr

/-- The relay: the `rooms` registry, socket.io's `io.sockets.adapter.rooms` (room name to the
ids of its members, in insertion order) and `io.sockets.sockets` (connected sockets, each with
its `socket.data`). -/
structure Relay where
  rooms : List (String × RoomInfo)
  adapterRooms : List (String × List String)
  sockets : List (String × SocketData)
  deriving DecidableEq, Repr

/-- The payload of a `join-room` request. -/
structure JoinReq where
  roomId : String
  name : JsVal
  isPrivate : JsVal
  token : JsVal
  deriving DecidableEq, Repr

/-- The relay before any connection. -/
def Relay.empty : Relay := ⟨[], [], []⟩

/-- `Array.from(io.sockets.adapter.rooms.get(room) || [])`. -/
def Relay.members (s : Relay) (room : String) : List String :=
  (mapGet s.adapterRooms room).getD []

/-- `socket.join(room)` for the socket `id`: the room is created when absent, and a socket
already in the room is not added again. -/
def adapterJoin (a : List (String × List String)) (room id : String) :
    List (String × List String) :=
  match mapGet a room with
  | none => mapSet a room [id]
  | some ms => if id ∈ ms then a else mapSet a room (ms ++ [id])

/-- `socket.leave(room)` for the socket `id`: a room left without members is removed. -/
def adapterLeave (a : List (String × List String)) (room id : String) :
    List (String × List String) :=
  match mapGet a room with
  | none => a
  | some ms =>
    let ms1 := ms.filter (fun m => m != id)
    if ms1.isEmpty then mapDelete a room else mapSet a room ms1

/-- The sockets an emit to `room` reaches: its members that are connected, without the sender
when the emit is `socket.to(room)` (`except = some sender`), all of them for `io.to(room)`. -/
def Relay.recipients (s : Relay) (room : String) (except : Option String) : List String :=
  (s.members room).filter (fun id => decide (except ≠ some id) && mapHas s.sockets id)

/-- One hexadecimal digit, lower case. -/
def hexDigit (n : Nat) : Char :=
  if n % 16 < 10 then Char.ofNat (48 + n % 16) else Char.ofNat (87 + n % 16)

/-- `buffer.toString("hex")`: two digits per byte. -/
def toHex (bytes : List Nat) : String :=
  String.mk (bytes.flatMap (fun b => [hexDigit (b / 16), hexDigit b]))

/-- `token === roomInfo.token`, the stored token being a string or `null`. -/
def tokenStrictEq (token : JsVal) (stored : Option String) : Bool :=
  match token, stored with
  | .str t, some u => t == u
  | .null, none => true
  | _, _ => false

/-- The text of the `join-denied` message. -/
def deniedMessage : String := "Private room: invalid invite link/token."

/-- `socket.data.roomId = roomId; socket.data.name = name` for the socket `c`. -/
def setSocketData (sockets : List (String × SocketData)) (c : String) (d : SocketData) :
    List (String × SocketData) :=
  sockets.map (fun e => if e.1 = c then (e.1, d) else e)

/-- `s?.data?.name || "User"` for `s = io.sockets.sockets.get(id)`. -/
def displayName (sockets : List (String × SocketData)) (id : String) : JsVal :=
  match mapGet sockets id with
  | none => .str "User"
  | some d => d.name.or (.str "User")

/-- The `join-room` handler of the socket `c` (index.js, lines 30 to 74). `rnd` is the buffer
`crypto.randomBytes(16)` returns. The result is the next state and the messages emitted, each
with its recipient, in order. -/
def joinRoom (s : Relay) (c : String) (req : JoinReq) (rnd : List Nat) :
    Relay × List (String × Msg) :=
  let isCreator := !mapHas s.rooms req.roomId
  let rooms1 :=
    if isCreator then
      let privateFlag := req.isPrivate.truthy
      let roomToken := if privateFlag then some (toHex rnd) else none
      mapSet s.rooms req.roomId { isPrivate := privateFlag, token := roomToken }
    else s.rooms
  match mapGet rooms1 req.roomId with
  | none => ({ s with rooms := rooms1 }, [])
  | some roomInfo =>
    if roomInfo.isPrivate && !isCreator
        && (!req.token.truthy || !tokenStrictEq req.token roomInfo.token) then
      ({ s with rooms := rooms1 }, [(c, Msg.joinDenied deniedMessage)])
    else
      let s1 : Relay :=
        { rooms := rooms1
          adapterRooms := adapterJoin s.adapterRooms req.roomId c
          sockets := setSocketData s.sockets c { roomId := .str req.roomId, name := req.name } }
      let joined := (s1.recipients req.roomId (some c)).map
        (fun id => (id, Msg.userJoined c req.name))
      let others := ((s1.members req.roomId).filter (fun id => id != c)).map
        (fun id => (id, displayName s1.sockets id))
      (s1, joined ++ [(c, Msg.roomUsers others roomInfo)])

/-- The `signal` handler of the socket `c` (index.js, lines 77 to 79):
`io.to(to).emit("signal", { from: socket.id, data })`. -/
def signal (s : Relay) (c : String) (toId : String) (data : SignalData) :
    Relay × List (String × Msg) :=
  (s, (s.recipients toId none).map (fun id => (id, Msg.signal c data)))

/-- A new connection with id `id`: the socket is registered with empty `socket.data` and joins
the room named by its own id. -/
def connect (s : Relay) (id : String) : Relay :=
  { s with
    adapterRooms := adapterJoin s.adapterRooms id id
    sockets := mapSet s.sockets id { roomId := .undefined, name := .undefined } }

/-- The stored token as the JavaScript value `roomInfo.token`. -/
def RoomInfo.tokenVal (r : RoomInfo) : JsVal :=
  match r.token with
  | some t => .str t
  | none => .null

/-- A message is a `join-denied`. -/
def Msg.isJoinDenied : Msg → Bool
  | .joinDenied _ => true
  | _ => false

/-- The handler emitted a `join-denied`. -/
def isDenied (out : Relay × List (String × Msg)) : Bool :=
  out.2.any (fun e => e.2.isJoinDenied)

/-- A character of a lower-case hexadecimal rendering. -/
def isHexChar (ch : Char) : Bool :=
  (48 ≤ ch.toNat && ch.toNat ≤ 57) || (97 ≤ ch.toNat && ch.toNat ≤ 102)


/-- The adapter is well formed: a room lists no socket twice, and lists connected sockets
only. -/
def Relay.WF (s : Relay) : Prop :=
  ∀ e ∈ s.adapterRooms, e.2.Nodup ∧ ∀ id ∈ e.2, mapHas s.sockets id = true

/-- Two connected sockets `a` and `b`, of which `a` has joined (and created) the public
room `r`. -/
def oneInRoom : Relay :=
  (joinRoom (connect (connect Relay.empty "a") "b") "a"
    ⟨"r", .str "Ann", .bool false, .undefined⟩ []).1

/-- Two connected sockets `a` and `b` that have both joined the public room `r`. -/
def twoInRoom : Relay :=
  (joinRoom oneInRoom "b" ⟨"r", .str "Bob", .undefined, .undefined⟩ []).1

/-- The members of `room` other than `c`, in the adapter's order. -/
def Relay.peers (s : Relay) (room c : String) : List String :=
  (s.members room).filter (fun id => id != c)

/-! ## Client: role derivation -/

/-- The UTF-16 code units of a character. -/
def utf16Char (c : Char) : List Nat :=
  if c.toNat < 65536 then [c.toNat]
  else [55296 + (c.toNat - 65536) / 1024, 56320 + (c.toNat - 65536) % 1024]

/-- The UTF-16 code units of a string, which JavaScript's string comparison goes by. -/
def utf16 (s : String) : List Nat := s.data.flatMap utf16Char

/-- Lexicographic `>` on code-unit sequences. -/
def unitsGt : List Nat → List Nat → Bool
  | [], _ => false
  | _ :: _, [] => true
  | a :: as, b :: bs => if a = b then unitsGt as bs else decide (b < a)

/-- The expression `a > b` on two strings. -/
def strGt (a b : String) : Bool := unitsGt (utf16 a) (utf16 b)

/-- `isPolite(remoteId)` (App.jsx, lines 77 to 80) on a client whose `socket.id` is
`socketId`: `none` is `undefined`, and `!socket.id` also holds of the empty string. -/
def isPolite (socketId : Option String) (remoteId : String) : Bool :=
  match socketId with
  | none => true
  | some id => if id = "" then true else strGt id remoteId

/-! ## Client: peer connections and the signal handler -/

/-- `pc.signalingState`. -/
inductive SignalingState where
  | stable
  | haveLocalOffer
  | haveRemoteOffer
  | haveLocalPranswer
  | haveRemotePranswer
  | closed
  deriving DecidableEq, Repr

/-- A media track, by its `kind`. -/
structure Track where
  kind : String
  deriving DecidableEq, Repr

/-- The peer-connection transport the client drives (`RTCPeerConnection`), over connection
states `PC`. An operation that returns a promise gives `none` when the promise rejects. -/
structure Transport (PC : Type) where
  create : PC
  signalingState : PC → SignalingState
  localDescription : PC → Option Description
  senderKinds : PC → List String
  addTrack : PC → Track → PC
  setLocalDescription : PC → Option PC
  setRemoteDescription : PC → Description → Option PC
  addIceCandidate : PC → Candidate → Option PC
  close : PC → PC

/-- The client state the handlers read and write: `socket.id`, the `micOn` / `camOn` flags,
`localStreamRef.current`, the dictionaries `pcsRef`, `makingOfferRef`, `ignoreOfferRef`,
`mediaState` and `remoteStreams`, and the chat `messages` (`from`, `text`). -/
structure Client (PC : Type) where
  socketId : Option String
  micOn : Bool
  camOn : Bool
  localStream : Option (List Track)
  pcs : List (String × PC)
  makingOffer : List (String × Bool)
  ignoreOffer : List (String × Bool)
  mediaState : List (String × (Bool × Bool))
  messages : List (JsVal × JsVal)
  remoteStreams : List (String × List Track)
  deriving DecidableEq

/-- What a handler does to the outside: `socket.emit("signal", { to, data })` and the calls it
makes on the peer connection of a remote. -/
inductive Act where
  | emit (toId : String) (data : SignalData)
  | setRemoteDescription (remoteId : String) (d : Description)
  | setLocalDescription (remoteId : String)
  | addIceCandidate (remoteId : String) (c : Candidate)
  deriving DecidableEq, Repr

/-- The result of running a handler: the client state, the actions in order, and whether the
handler ended with an uncaught error. -/
structure Outcome (PC : Type) where
  state : Client PC
  acts : List Act
  threw : Bool
  deriving DecidableEq

/-- `attachLocalTracksToPC(pc)` (App.jsx, lines 109 to 118): every track of the local stream
whose kind no sender of `pc` had when the function was entered is added. -/
def attachLocalTracksToPC {PC : Type} (T : Transport PC) (stream : Option (List Track))
    (pc : PC) : PC :=
  match stream with
  | none => pc
  | some tracks =>
    let senders := T.senderKinds pc
    tracks.foldl (fun p track => if senders.any (fun k => k == track.kind) then p
      else T.addTrack p track) pc

/-- `ensurePeer(remoteId)` (App.jsx, lines 127 to 177): the connection of `remoteId`, created
with the local tracks attached and stored when there is none. -/
def ensurePeer {PC : Type} (T : Transport PC) (st : Client PC) (remoteId : String) :
    Client PC × PC :=
  match mapGet st.pcs remoteId with
  | some pc => (st, pc)
  | none =>
    let pc := attachLocalTracksToPC T st.localStream T.create
    ({ st with pcs := mapSet st.pcs remoteId pc }, pc)

/-- The `signal` handler of the client (App.jsx, lines 316 to 384), for a message
`{ from: sender, data }`. -/
def onSignal {PC : Type} (T : Transport PC) (st : Client PC) (sender : String)
    (data : SignalData) : Outcome PC :=
  match data with
  | .untyped => ⟨st, [], false⟩
  | .chat name text =>
    ⟨{ st with messages := st.messages ++ [(name.or (.str sender), text)] }, [], false⟩
  | .mediaStateRequest =>
    ⟨st, [.emit sender (.mediaState (.bool st.micOn) (.bool st.camOn))], false⟩
  | .mediaState micOn camOn =>
    ⟨{ st with mediaState := mapSet st.mediaState sender (micOn.truthy, camOn.truthy) }, [],
      false⟩
  | .unknownType => ⟨(ensurePeer T st sender).1, [], false⟩
  | .description none => ⟨(ensurePeer T st sender).1, [], true⟩
  | .description (some description) =>
    let st1 := (ensurePeer T st sender).1
    let pc := (ensurePeer T st sender).2
    let polite := isPolite st1.socketId sender
    let offerCollision := description.type == .offer &&
      ((mapGet st1.makingOffer sender).getD false || T.signalingState pc != .stable)
    let ignoreThisOffer := !polite && offerCollision
    if ignoreThisOffer then ⟨st1, [], false⟩
    else
      match T.setRemoteDescription pc description with
      | none => ⟨st1, [.setRemoteDescription sender description], true⟩
      | some pc1 =>
        if description.type == .offer then
          let pc2 := attachLocalTracksToPC T st1.localStream pc1
          match T.setLocalDescription pc2 with
          | none =>
            ⟨{ st1 with pcs := mapSet st1.pcs sender pc2 },
              [.setRemoteDescription sender description, .setLocalDescription sender], true⟩
          | some pc3 =>
            ⟨{ st1 with pcs := mapSet st1.pcs sender pc3 },
              [.setRemoteDescription sender description, .setLocalDescription sender,
                .emit sender (.description (T.localDescription pc3))], false⟩
        else
          ⟨{ st1 with pcs := mapSet st1.pcs sender pc1 },
            [.setRemoteDescription sender description], false⟩
  | .candidate candidate =>
    let st1 := (ensurePeer T st sender).1
    let pc := (ensurePeer T st sender).2
    match T.addIceCandidate pc candidate with
    | none => ⟨st1, [.addIceCandidate sender candidate], false⟩
    | some pc1 =>
      ⟨{ st1 with pcs := mapSet st1.pcs sender pc1 }, [.addIceCandidate sender candidate],
        false⟩

/-! ## A signaling-state model of the transport -/

/-- The state of a peer connection as far as offer / answer exchange goes. -/
structure JsepPC where
  signalingState : SignalingState
  pendingLocal : Option Description
  currentLocal : Option Description
  pendingRemote : Option Description
  currentRemote : Option Description
  senders : List String
  deriving DecidableEq, Repr

/-- The transport as the offer / answer state machine of the abstract interface: a local
description produced in `stable` or `have-local-offer` is an offer (sdp `offerSdp`) and leads
to `have-local-offer`, one produced in `have-remote-offer` is an answer (sdp `answerSdp`) and
returns the link to `stable`; a remote offer applied in `have-local-offer` rolls the local
offer back; a remote answer is accepted in `have-local-offer` only and returns the link to
`stable`. Every other use is rejected. -/
def jsep (offerSdp answerSdp : String) : Transport JsepPC where
  create := ⟨.stable, none, none, none, none, []⟩
  signalingState := fun pc => pc.signalingState
  localDescription := fun pc =>
    match pc.pendingLocal with
    | some d => some d
    | none => pc.currentLocal
  senderKinds := fun pc => pc.senders
  addTrack := fun pc track => { pc with senders := pc.senders ++ [track.kind] }
  setLocalDescription := fun pc =>
    match pc.signalingState with
    | .stable => some { pc with signalingState := .haveLocalOffer
                                pendingLocal := some ⟨.offer, offerSdp⟩ }
    | .haveLocalOffer => some { pc with pendingLocal := some ⟨.offer, offerSdp⟩ }
    | .haveRemoteOffer =>
      some { pc with signalingState := .stable
                     currentLocal := some ⟨.answer, answerSdp⟩
                     currentRemote := pc.pendingRemote
                     pendingLocal := none
                     pendingRemote := none }
    | _ => none
  setRemoteDescription := fun pc d =>
    match d.type, pc.signalingState with
    | .offer, .stable => some { pc with signalingState := .haveRemoteOffer
                                        pendingRemote := some d }
    | .offer, .haveLocalOffer => some { pc with signalingState := .haveRemoteOffer
                                                pendingLocal := none
                                                pendingRemote := some d }
    | .offer, .haveRemoteOffer => some { pc with pendingRemote := some d }
    | .answer, .haveLocalOffer =>
      some { pc with signalingState := .stable
                     currentLocal := pc.pendingLocal
                     currentRemote := some d
                     pendingLocal := none
                     pendingRemote := none }
    | _, _ => none
  addIceCandidate := fun pc _ =>
    match pc.pendingRemote, pc.currentRemote with
    | none, none => none
    | _, _ => some pc
  close := fun pc => { pc with signalingState := .closed }

/-! ## The glare scenario -/

/-- The client has issued the offer `off` to `remote` and awaits the answer: its link to
`remote` is in `have-local-offer` with `off` as pending local description. -/
def HasIssuedOffer (st : Client JsepPC) (remote : String) (off : Description) : Prop :=
  match mapGet st.pcs remote with
  | some pc => pc.signalingState = .haveLocalOffer ∧ pc.pendingLocal = some off ∧
      off.type = .offer
  | none => False

/-- The outcome of glare between the clients `sti` (id `i`) and `stp` (id `p`), who issued
the offers `offI` and `offP`: `sti` computes impolite and `stp` polite; `sti` ignores `offP`;
`stp` applies `offI`, which rolls its own offer back, and answers it with `ans`, ending in
`stable`; and `sti`, on receiving `ans`, applies it and ends in `stable`, both sides holding
the pair `offI` / `ans`. -/
def GlareResolved (Ti Tp : Transport JsepPC) (sti stp : Client JsepPC) (i p : String)
    (offI offP ans : Description) : Prop :=
  isPolite sti.socketId p = false ∧ isPolite stp.socketId i = true ∧
  onSignal Ti sti p (.description (some offP)) = ⟨sti, [], false⟩ ∧
  (onSignal Tp stp i (.description (some offI))).acts =
    [.setRemoteDescription i offI, .setLocalDescription i, .emit i (.description (some ans))] ∧
  (onSignal Tp stp i (.description (some offI))).threw = false ∧
  ans.type = .answer ∧
  (mapGet (onSignal Tp stp i (.description (some offI))).state.pcs i).map
      (fun pc => (pc.signalingState, pc.pendingLocal, pc.currentLocal, pc.currentRemote)) =
    some (.stable, none, some ans, some offI) ∧
  (onSignal Ti sti p (.description (some ans))).acts = [.setRemoteDescription p ans] ∧
  (onSignal Ti sti p (.description (some ans))).threw = false ∧
  (mapGet (onSignal Ti sti p (.description (some ans))).state.pcs p).map
      (fun pc => (pc.signalingState, pc.pendingLocal, pc.currentLocal, pc.currentRemote)) =
    some (.stable, none, some offI, some ans)

/-- A client with id `id` whose only link, to `remote`, holds the pending local offer with
sdp `offerSdp`. -/
def offeringClient (id remote offerSdp : String) : Client JsepPC :=
  { socketId := some id
    micOn := false
    camOn := false
    localStream := none
    pcs := [(remote, ⟨.haveLocalOffer, some ⟨.offer, offerSdp⟩, none, none, none, []⟩)]
    makingOffer := [(remote, false)]
    ignoreOffer := []
    mediaState := []
    messages := []
    remoteStreams := [] }

/-! ## Relay: leaving and disconnecting -/

/-- `socket.data.name` of the socket `c`. -/
def socketName (sockets : List (String × SocketData)) (c : String) : JsVal :=
  match mapGet sockets c with
  | some d => d.name
  | none => .undefined

/-- `socket.data.roomId = null` for the socket `c`. -/
def clearSocketRoom (sockets : List (String × SocketData)) (c : String) :
    List (String × SocketData) :=
  sockets.map (fun e => if e.1 = c then (e.1, { e.2 with roomId := .null }) else e)

/-- The test `!room || room.size === 0` on `io.sockets.adapter.rooms.get(roomId)`, and the
`rooms.delete(roomId)` it guards. -/
def cleanupRoom (rooms : List (String × RoomInfo)) (a : List (String × List String))
    (roomId : String) : List (String × RoomInfo) :=
  match mapGet a roomId with
  | none => mapDelete rooms roomId
  | some ms => if ms.length = 0 then mapDelete rooms roomId else rooms

/-- The `leave-room` handler of the socket `c` (index.js, lines 81 to 94). -/
def leaveRoom (s : Relay) (c : String) (roomId : String) (name : JsVal) :
    Relay × List (String × Msg) :=
  let finalName := (name.or (socketName s.sockets c)).or (.str "User")
  let left := (s.recipients roomId (some c)).map (fun id => (id, Msg.userLeft c finalName))
  let adapter1 := adapterLeave s.adapterRooms roomId c
  (⟨cleanupRoom s.rooms adapter1 roomId, adapter1, clearSocketRoom s.sockets c⟩, left)

/-- What socket.io does to its adapter when the socket `id` disconnects: the socket leaves
every room it is in, and a room left without members is removed. -/
def adapterLeaveAll (a : List (String × List String)) (id : String) :
    List (String × List String) :=
  a.filterMap (fun e =>
    if id ∈ e.2 then
      let ms := e.2.filter (fun m => m != id)
      if ms.isEmpty then none else some (e.1, ms)
    else some e)

/-- The `disconnect` handler of the socket `c` (index.js, lines 96 to 111). When it runs,
socket.io has already taken the socket out of all its rooms and out of `io.sockets.sockets`;
`socket.data` is still that of the socket. A recorded `roomId` is `undefined`, `null` or a
string. -/
def disconnect (s : Relay) (c : String) : Relay × List (String × Msg) :=
  let data := (mapGet s.sockets c).getD ⟨.undefined, .undefined⟩
  let s1 : Relay := ⟨s.rooms, adapterLeaveAll s.adapterRooms c, mapDelete s.sockets c⟩
  let name := data.name.or (.str "User")
  match data.roomId with
  | .str roomId =>
    if roomId != "" then
      let left := (s1.recipients roomId (some c)).map (fun id => (id, Msg.userLeft c name))
      ({ s1 with rooms := cleanupRoom s.rooms s1.adapterRooms roomId }, left)
    else (s1, [])
  | _ => (s1, [])

/-- An event at the relay: a new connection, or a request of a connected socket. -/
inductive Event where
  | connect (id : String)
  | joinRoom (c : String) (req : JoinReq) (rnd : List Nat)
  | signal (c : String) (toId : String) (data : SignalData)
  | leaveRoom (c : String) (roomId : String) (name : JsVal)
  | disconnect (c : String)
  deriving DecidableEq, Repr

/-- The relay state after an event. A connection gets an id no connected socket has, and only
a connected socket has its handlers run: other events change nothing. -/
def step (s : Relay) : Event → Relay
  | .connect id => if mapHas s.sockets id then s else connect s id
  | .joinRoom c req rnd => if mapHas s.sockets c then (joinRoom s c req rnd).1 else s
  | .signal c toId data => if mapHas s.sockets c then (signal s c toId data).1 else s
  | .leaveRoom c roomId name => if mapHas s.sockets c then (leaveRoom s c roomId name).1 else s
  | .disconnect c => if mapHas s.sockets c then (disconnect s c).1 else s

/-- The relay state after a sequence of events, from the empty state. -/
def run (events : List Event) : Relay := events.foldl step Relay.empty

/-- The adapter has at most one entry per room name. -/
def Relay.KeysNodup (s : Relay) : Prop :=
  (s.adapterRooms.map Prod.fst).Nodup

/-- Three connected sockets, `a` and `b` in the public room `r`, and `x` in no room. -/
def twoInRoomAndOutsider : Relay := connect twoInRoom "x"

/-- The socket `a` alone, having joined (and created) first the room `r1`, then the private
room `r2`. -/
def inTwoRooms : Relay :=
  run [.connect "a", .joinRoom "a" ⟨"r1", .str "Ann", .undefined, .undefined⟩ [],
    .joinRoom "a" ⟨"r2", .str "Ann", .bool true, .undefined⟩
      [0, 1, 2, 3, 4, 5, 6, 7, 8, 9, 10, 11, 12, 13, 14, 15]]

/-- The private room `r`, created by `a`, with its token. -/
def privateRoom : Relay :=
  run [.connect "a", .connect "b",
    .joinRoom "a" ⟨"r", .str "Ann", .bool true, .undefined⟩
      [0, 1, 2, 3, 4, 5, 6, 7, 8, 9, 10, 11, 12, 13, 14, 15]]

/-! ## Client: the invite token, closing a link, renegotiation -/

/-- The `room-users` handler's use of `roomInfo` (App.jsx, lines 257 to 260): the token of a
private room, when there is one, replaces the stored invite token. -/
def storeInviteToken (inviteToken : String) (roomInfo : Option RoomInfo) : String :=
  match roomInfo with
  | none => inviteToken
  | some info =>
    match info.token with
    | none => inviteToken
    | some t => if info.isPrivate && t != "" then t else inviteToken

/-- The property names that every plain JavaScript object inherits from `Object.prototype`.
The dictionaries of the client (`pcsRef.current` and the like) are plain objects and answer a
lookup of such a name without an entry of their own; the association lists of this model do
not. The relay assigns no such name as an id. -/
def inheritedKeys : List String :=
  ["constructor", "hasOwnProperty", "isPrototypeOf", "propertyIsEnumerable", "toLocaleString",
    "toString", "valueOf", "__proto__", "__defineGetter__", "__defineSetter__",
    "__lookupGetter__", "__lookupSetter__"]

/-- `closePeer(remoteId)` (App.jsx, lines 179 to 201): the connection of `remoteId`, if any,
is closed and dropped, and the entries of `remoteId` in `makingOfferRef`, `ignoreOfferRef`,
`remoteStreams` and `mediaState` are deleted. -/
def closePeer {PC : Type} (st : Client PC) (remoteId : String) : Client PC :=
  { st with
    pcs := mapDelete st.pcs remoteId
    makingOffer := mapDelete st.makingOffer remoteId
    ignoreOffer := mapDelete st.ignoreOffer remoteId
    remoteStreams := mapDelete st.remoteStreams remoteId
    mediaState := mapDelete st.mediaState remoteId }

/-- A run of a `negotiationneeded` handler: the client state in which the handler awaits
`pc.setLocalDescription()`, which is the state other handlers see until the promise settles,
and the result of the handler. -/
structure NegotiationRun (PC : Type) where
  awaiting : Client PC
  result : Outcome PC

/-- The `negotiationneeded` handler of the link to `remoteId` (App.jsx, lines 160 to 173): the
`try` sets `makingOfferRef.current[remoteId] = true`, awaits the local description and emits
it, the `catch` swallows a rejection, the `finally` sets the flag to `false`. A remote without
a link has no such handler. -/
def onnegotiationneeded {PC : Type} (T : Transport PC) (st : Client PC) (remoteId : String) :
    NegotiationRun PC :=
  match mapGet st.pcs remoteId with
  | none => ⟨st, ⟨st, [], false⟩⟩
  | some pc =>
    let st1 := { st with makingOffer := mapSet st.makingOffer remoteId true }
    match T.setLocalDescription pc with
    | none =>
      ⟨st1, ⟨{ st1 with makingOffer := mapSet st1.makingOffer remoteId false },
        [.setLocalDescription remoteId], false⟩⟩
    | some pc1 =>
      ⟨st1, ⟨{ st1 with pcs := mapSet st1.pcs remoteId pc1
                        makingOffer := mapSet st1.makingOffer remoteId false },
        [.setLocalDescription remoteId,
          .emit remoteId (.description (T.localDescription pc1))], false⟩⟩

/-- A client with id `id`, microphone on and camera off, and no link. -/
def micOnClient (id : String) : Client JsepPC :=
  { socketId := some id
    micOn := true
    camOn := false
    localStream := none
    pcs := []
    makingOffer := []
    ignoreOffer := []
    mediaState := []
    messages := []
    remoteStreams := [] }
/-! ## Map lemmas -/

theorem mapHas_eq_isSome {β : Type} (m : List (String × β)) (k : String) :
    mapHas m k = (mapGet m k).isSome := by
  induction m with
  | nil => rfl
  | cons e es ih =>
    unfold mapHas at ih ⊢
    by_cases h : e.1 = k <;> simp [mapGet, h, List.any_cons, ih]

theorem mapGet_mapSet_self {β : Type} (m : List (String × β)) (k : String) (v : β) :
    mapGet (mapSet m k v) k = some v := by
  induction m with
  | nil => simp [mapSet, mapGet]
  | cons e es ih =>
    by_cases h : e.1 = k <;> simp [mapSet, mapGet, h, ih]

theorem mapGet_mapSet_ne {β : Type} (m : List (String × β)) (k j : String) (v : β)
    (hj : j ≠ k) : mapGet (mapSet m k v) j = mapGet m j := by
  induction m with
  | nil => simp [mapSet, mapGet, Ne.symm hj]
  | cons e es ih =>
    by_cases h : e.1 = k
    · have h2 : e.1 ≠ j := by rw [h]; exact Ne.symm hj
      simp [mapSet, mapGet, h, h2, Ne.symm hj]
    · by_cases h3 : e.1 = j
      · simp only [mapSet, if_neg h, mapGet, if_pos h3]
      · simp only [mapSet, if_neg h, mapGet, if_neg h3, ih]

theorem tokenStrictEq_iff (token : JsVal) (r : RoomInfo) :
    tokenStrictEq token r.token = true ↔ token = r.tokenVal := by
  cases token <;> cases hr : r.token <;> simp [tokenStrictEq, RoomInfo.tokenVal, hr]

theorem mem_members_adapterJoin (a : List (String × List String)) (room id : String) :
    id ∈ (mapGet (adapterJoin a room id) room).getD [] := by
  unfold adapterJoin
  cases h : mapGet a room with
  | none => simp [mapGet_mapSet_self]
  | some ms =>
    by_cases hm : id ∈ ms
    · simp [hm, h]
    · simp [hm, mapGet_mapSet_self]

/-- The outcome of `join-room` on a room that has a registry entry. -/
theorem joinRoom_existing (s : Relay) (c : String) (req : JoinReq) (rnd : List Nat)
    (info : RoomInfo) (h : mapGet s.rooms req.roomId = some info) :
    joinRoom s c req rnd =
      if info.isPrivate && (!req.token.truthy || !tokenStrictEq req.token info.token) then
        (s, [(c, Msg.joinDenied deniedMessage)])
      else
        let s1 : Relay :=
          { rooms := s.rooms
            adapterRooms := adapterJoin s.adapterRooms req.roomId c
            sockets := setSocketData s.sockets c { roomId := .str req.roomId, name := req.name } }
        (s1, (s1.recipients req.roomId (some c)).map (fun id => (id, Msg.userJoined c req.name))
          ++ [(c, Msg.roomUsers (((s1.members req.roomId).filter (fun id => id != c)).map
            (fun id => (id, displayName s1.sockets id))) info)]) := by
  have hh : mapHas s.rooms req.roomId = true := by rw [mapHas_eq_isSome, h]; rfl
  cases s
  simp only [joinRoom, hh, Bool.not_true, Bool.false_eq_true, if_false, h, Bool.and_true,
    Bool.not_false]

/-- The outcome of `join-room` on a room that has no registry entry. -/
theorem joinRoom_fresh (s : Relay) (c : String) (req : JoinReq) (rnd : List Nat)
    (h : mapHas s.rooms req.roomId = false) :
    joinRoom s c req rnd =
      let info : RoomInfo :=
        { isPrivate := req.isPrivate.truthy
          token := if req.isPrivate.truthy then some (toHex rnd) else none }
      let s1 : Relay :=
        { rooms := mapSet s.rooms req.roomId info
          adapterRooms := adapterJoin s.adapterRooms req.roomId c
          sockets := setSocketData s.sockets c { roomId := .str req.roomId, name := req.name } }
      (s1, (s1.recipients req.roomId (some c)).map (fun id => (id, Msg.userJoined c req.name))
        ++ [(c, Msg.roomUsers (((s1.members req.roomId).filter (fun id => id != c)).map
          (fun id => (id, displayName s1.sockets id))) info)]) := by
  simp only [joinRoom, h, Bool.not_false, if_true, mapGet_mapSet_self, Bool.and_false,
    Bool.false_and, Bool.false_eq_true, if_false, Bool.not_true]

theorem isDenied_admitted (s1 : Relay) (l : List String) (c : String)
    (others : List (String × JsVal)) (info : RoomInfo) (name : JsVal) :
    isDenied (s1, l.map (fun id => (id, Msg.userJoined c name))
      ++ [(c, Msg.roomUsers others info)]) = false := by
  simp [isDenied, Msg.isJoinDenied]


theorem isHexChar_hexDigit (n : Nat) : isHexChar (hexDigit n) = true := by
  have hlt : n % 16 < 16 := Nat.mod_lt n (by decide)
  unfold hexDigit
  generalize n % 16 = k at hlt
  interval_cases k <;> decide

theorem toHex_length (bytes : List Nat) : (toHex bytes).length = 2 * bytes.length := by
  unfold toHex
  show (bytes.flatMap (fun b => [hexDigit (b / 16), hexDigit b])).length = 2 * bytes.length
  induction bytes with
  | nil => rfl
  | cons b bs ih => simp only [List.flatMap_cons, List.length_append, ih, List.length_cons,
      List.length_nil]; omega

theorem toHex_isHex (bytes : List Nat) : ∀ ch ∈ (toHex bytes).data, isHexChar ch = true := by
  intro ch hch
  unfold toHex at hch
  simp only [List.mem_flatMap, List.mem_cons, List.mem_singleton, List.not_mem_nil,
    or_false] at hch
  obtain ⟨b, _, hb⟩ := hch
  rcases hb with hb | hb <;> rw [hb] <;> exact isHexChar_hexDigit _

theorem mapGet_of_mapHas {β : Type} (m : List (String × β)) (k : String)
    (h : mapHas m k = true) : ∃ v, mapGet m k = some v := by
  rw [mapHas_eq_isSome] at h
  exact Option.isSome_iff_exists.mp h

theorem badToken_iff (token : JsVal) (info : RoomInfo) :
    (!token.truthy || !tokenStrictEq token info.token) = true ↔
      ((token = .undefined ∨ token = .null ∨ token = .str "") ∨ token ≠ info.tokenVal) := by
  rcases info with ⟨p, tk⟩
  cases token with
  | str t =>
    cases tk with
    | none => simp [tokenStrictEq, RoomInfo.tokenVal]
    | some u =>
      by_cases h1 : t = "" <;> by_cases h2 : t = u <;>
        simp [JsVal.truthy, tokenStrictEq, RoomInfo.tokenVal, h1, h2]
  | undefined => cases tk <;> simp [JsVal.truthy, tokenStrictEq, RoomInfo.tokenVal]
  | null => cases tk <;> simp [JsVal.truthy, tokenStrictEq, RoomInfo.tokenVal]
  | bool b => cases tk <;> simp [JsVal.truthy, tokenStrictEq, RoomInfo.tokenVal]
  | num n => cases tk <;> simp [JsVal.truthy, tokenStrictEq, RoomInfo.tokenVal]

theorem joinRoom_existing_denied (s : Relay) (c : String) (req : JoinReq) (rnd : List Nat)
    (info : RoomInfo) (h : mapGet s.rooms req.roomId = some info) :
    isDenied (joinRoom s c req rnd) =
      (info.isPrivate && (!req.token.truthy || !tokenStrictEq req.token info.token)) := by
  rw [joinRoom_existing s c req rnd info h]
  cases hc : (info.isPrivate && (!req.token.truthy || !tokenStrictEq req.token info.token))
  · simp only [Bool.false_eq_true, if_false]
    exact isDenied_admitted _ _ _ _ _ _
  · simp [isDenied, Msg.isJoinDenied]

/-! ## Membership lemmas -/

theorem mapGet_mem {β : Type} (m : List (String × β)) (k : String) (v : β)
    (h : mapGet m k = some v) : (k, v) ∈ m := by
  induction m with
  | nil => simp [mapGet] at h
  | cons e es ih =>
    by_cases he : e.1 = k
    · simp only [mapGet, if_pos he, Option.some.injEq] at h
      have : e = (k, v) := by rw [← he, ← h]
      rw [this]
      exact List.mem_cons_self _ _
    · simp only [mapGet, if_neg he] at h
      exact List.mem_cons_of_mem _ (ih h)

theorem members_adapterJoin (a : List (String × List String)) (room id : String) :
    (mapGet (adapterJoin a room id) room).getD [] =
      if id ∈ (mapGet a room).getD [] then (mapGet a room).getD []
      else (mapGet a room).getD [] ++ [id] := by
  unfold adapterJoin
  cases h : mapGet a room with
  | none => simp [mapGet_mapSet_self]
  | some ms =>
    by_cases hm : id ∈ ms
    · simp [hm, h]
    · simp [hm, mapGet_mapSet_self]

theorem mapHas_setSocketData (m : List (String × SocketData)) (c : String) (d : SocketData)
    (k : String) : mapHas (setSocketData m c d) k = mapHas m k := by
  induction m with
  | nil => rfl
  | cons e es ih =>
    unfold mapHas at ih ⊢
    simp only [setSocketData, List.map_cons, List.any_cons] at ih ⊢
    rw [ih]
    by_cases he : e.1 = c <;> simp [he]

theorem mapGet_setSocketData_ne (m : List (String × SocketData)) (c : String) (d : SocketData)
    (k : String) (hk : k ≠ c) : mapGet (setSocketData m c d) k = mapGet m k := by
  induction m with
  | nil => rfl
  | cons e es ih =>
    simp only [setSocketData, List.map_cons] at ih ⊢
    by_cases he : e.1 = c
    · have hek : ¬ e.1 = k := by rw [he]; exact fun h => hk h.symm
      simp only [if_pos he, mapGet, if_neg hek, ih]
    · by_cases hek : e.1 = k
      · simp only [if_neg he, mapGet, if_pos hek]
      · simp only [if_neg he, mapGet, if_neg hek, ih]

/-- The outcome of an admitted `join-room`. -/
theorem joinRoom_admitted (s : Relay) (c : String) (req : JoinReq) (rnd : List Nat)
    (h : isDenied (joinRoom s c req rnd) = false) :
    ∃ (rooms1 : List (String × RoomInfo)) (info : RoomInfo),
      joinRoom s c req rnd =
        (⟨rooms1, adapterJoin s.adapterRooms req.roomId c,
            setSocketData s.sockets c { roomId := .str req.roomId, name := req.name }⟩,
          ((Relay.recipients ⟨rooms1, adapterJoin s.adapterRooms req.roomId c,
              setSocketData s.sockets c { roomId := .str req.roomId, name := req.name }⟩
            req.roomId (some c)).map (fun id => (id, Msg.userJoined c req.name)))
          ++ [(c, Msg.roomUsers
            ((((mapGet (adapterJoin s.adapterRooms req.roomId c) req.roomId).getD []).filter
              (fun id => id != c)).map (fun id => (id, displayName
                (setSocketData s.sockets c { roomId := .str req.roomId, name := req.name }) id)))
            info)]) := by
  cases hh : mapHas s.rooms req.roomId with
  | false => exact ⟨_, _, joinRoom_fresh s c req rnd hh⟩
  | true =>
    obtain ⟨info, hinfo⟩ := mapGet_of_mapHas s.rooms req.roomId hh
    have hd := joinRoom_existing_denied s c req rnd info hinfo
    rw [h] at hd
    have he := joinRoom_existing s c req rnd info hinfo
    rw [if_neg (by rw [← hd]; decide)] at he
    exact ⟨_, _, he⟩

/-! ## Well-formedness is kept by the handlers -/

theorem mem_mapSet {β : Type} (m : List (String × β)) (k : String) (v : β) (e : String × β)
    (h : e ∈ mapSet m k v) : e ∈ m ∨ e = (k, v) := by
  induction m with
  | nil =>
    simp only [mapSet, List.mem_singleton] at h
    exact Or.inr h
  | cons x xs ih =>
    by_cases hx : x.1 = k
    · simp only [mapSet, if_pos hx, List.mem_cons] at h
      rcases h with h | h
      · exact Or.inr h
      · exact Or.inl (List.mem_cons_of_mem _ h)
    · simp only [mapSet, if_neg hx, List.mem_cons] at h
      rcases h with h | h
      · exact Or.inl (h ▸ List.mem_cons_self _ _)
      · rcases ih h with h2 | h2
        · exact Or.inl (List.mem_cons_of_mem _ h2)
        · exact Or.inr h2

theorem mapHas_mapSet {β : Type} (m : List (String × β)) (k : String) (v : β) (j : String) :
    mapHas (mapSet m k v) j = (mapHas m j || decide (j = k)) := by
  rw [mapHas_eq_isSome, mapHas_eq_isSome]
  by_cases hj : j = k
  · rw [hj, mapGet_mapSet_self]; simp
  · rw [mapGet_mapSet_ne m k j v hj]; simp [hj]

theorem mem_adapterJoin (a : List (String × List String)) (room id : String)
    (e : String × List String) (h : e ∈ adapterJoin a room id) :
    e ∈ a ∨ e = (room, [id]) ∨
      ∃ ms, (room, ms) ∈ a ∧ id ∉ ms ∧ e = (room, ms ++ [id]) := by
  unfold adapterJoin at h
  cases hg : mapGet a room with
  | none =>
    rw [hg] at h
    rcases mem_mapSet _ _ _ _ h with h2 | h2
    · exact Or.inl h2
    · exact Or.inr (Or.inl h2)
  | some ms =>
    rw [hg] at h
    by_cases hm : id ∈ ms
    · simp only [hm, if_true] at h
      exact Or.inl h
    · simp only [hm, if_false] at h
      rcases mem_mapSet _ _ _ _ h with h2 | h2
      · exact Or.inl h2
      · exact Or.inr (Or.inr ⟨ms, mapGet_mem _ _ _ hg, hm, h2⟩)

theorem WF_empty : Relay.empty.WF := by
  intro e he
  exact absurd he (List.not_mem_nil e)

/-- Joining a room keeps the adapter well formed, whatever the socket table becomes, as long
as it keeps the connected sockets and has the joining socket. -/
theorem WF_adapterJoin (s : Relay) (room id : String) (rooms1 : List (String × RoomInfo))
    (sockets1 : List (String × SocketData)) (hwf : s.WF)
    (hkeep : ∀ j, mapHas s.sockets j = true → mapHas sockets1 j = true)
    (hid : mapHas sockets1 id = true) :
    Relay.WF ⟨rooms1, adapterJoin s.adapterRooms room id, sockets1⟩ := by
  intro e he
  rcases mem_adapterJoin _ _ _ _ he with h | h | ⟨ms, hms, hnot, h⟩
  · exact ⟨(hwf e h).1, fun j hj => hkeep j ((hwf e h).2 j hj)⟩
  · rw [h]
    refine ⟨List.nodup_singleton id, fun j hj => ?_⟩
    rw [List.mem_singleton] at hj
    rw [hj]; exact hid
  · rw [h]
    refine ⟨List.Nodup.append (hwf _ hms).1 (List.nodup_singleton id) ?_, fun j hj => ?_⟩
    · intro x hx hx2
      rw [List.mem_singleton] at hx2
      exact hnot (hx2 ▸ hx)
    · rcases List.mem_append.mp hj with hj | hj
      · exact hkeep j ((hwf _ hms).2 j hj)
      · rw [List.mem_singleton] at hj
        rw [hj]; exact hid

theorem WF_connect (s : Relay) (id : String) (hwf : s.WF) : (connect s id).WF := by
  apply WF_adapterJoin s id id s.rooms _ hwf
  · intro j hj
    rw [mapHas_mapSet, hj]; rfl
  · rw [mapHas_mapSet]; simp

theorem WF_joinRoom (s : Relay) (c : String) (req : JoinReq) (rnd : List Nat) (hwf : s.WF)
    (hc : mapHas s.sockets c = true) : (joinRoom s c req rnd).1.WF := by
  cases hd : isDenied (joinRoom s c req rnd) with
  | false =>
    obtain ⟨rooms1, info, he⟩ := joinRoom_admitted s c req rnd hd
    rw [he]
    apply WF_adapterJoin s req.roomId c rooms1 _ hwf
    · intro j hj
      rw [mapHas_setSocketData]; exact hj
    · rw [mapHas_setSocketData]; exact hc
  | true =>
    cases hh : mapHas s.rooms req.roomId with
    | false =>
      rw [joinRoom_fresh s c req rnd hh, isDenied_admitted] at hd
      exact absurd hd (by decide)
    | true =>
      obtain ⟨info, hinfo⟩ := mapGet_of_mapHas s.rooms req.roomId hh
      have hd2 := joinRoom_existing_denied s c req rnd info hinfo
      rw [hd] at hd2
      rw [joinRoom_existing s c req rnd info hinfo, if_pos hd2.symm]
      exact hwf

/-! ## Leaving: lemmas -/

theorem mapGet_mapDelete_self {β : Type} (m : List (String × β)) (k : String) :
    mapGet (mapDelete m k) k = none := by
  induction m with
  | nil => rfl
  | cons e es ih =>
    unfold mapDelete at ih ⊢
    by_cases h : e.1 = k
    · simp only [List.filter_cons, h, bne_self_eq_false, Bool.false_eq_true, if_false, ih]
    · have hb : (e.1 != k) = true := by simpa using h
      simp only [List.filter_cons, hb, if_true, mapGet, if_neg h, ih]

theorem mapGet_mapDelete_ne {β : Type} (m : List (String × β)) (k j : String) (hj : j ≠ k) :
    mapGet (mapDelete m k) j = mapGet m j := by
  induction m with
  | nil => rfl
  | cons e es ih =>
    unfold mapDelete at ih ⊢
    by_cases h : e.1 = k
    · have hkj : ¬ k = j := fun e2 => hj e2.symm
      simp only [List.filter_cons, h, bne_self_eq_false, Bool.false_eq_true, if_false, ih,
        mapGet, if_neg hkj]
    · have hb : (e.1 != k) = true := by simpa using h
      by_cases hej : e.1 = j
      · simp only [List.filter_cons, hb, if_true, mapGet, if_pos hej]
      · simp only [List.filter_cons, hb, if_true, mapGet, if_neg hej, ih]

theorem mapHas_mapDelete_ne {β : Type} (m : List (String × β)) (k j : String) (hj : j ≠ k) :
    mapHas (mapDelete m k) j = mapHas m j := by
  rw [mapHas_eq_isSome, mapHas_eq_isSome, mapGet_mapDelete_ne m k j hj]

theorem mapHas_mapDelete_self {β : Type} (m : List (String × β)) (k : String) :
    mapHas (mapDelete m k) k = false := by
  rw [mapHas_eq_isSome, mapGet_mapDelete_self]; rfl

theorem members_adapterLeave_self (a : List (String × List String)) (r c : String) :
    (mapGet (adapterLeave a r c) r).getD [] =
      ((mapGet a r).getD []).filter (fun m => m != c) := by
  unfold adapterLeave
  cases h : mapGet a r with
  | none => simp [h]
  | some ms =>
    simp only [Option.getD_some]
    split
    · rename_i hemp
      rw [mapGet_mapDelete_self]
      simpa using hemp.symm
    · rw [mapGet_mapSet_self]; rfl

theorem mapGet_adapterLeave_ne (a : List (String × List String)) (r c room : String)
    (hne : room ≠ r) : mapGet (adapterLeave a r c) room = mapGet a room := by
  unfold adapterLeave
  cases h : mapGet a r with
  | none => rfl
  | some ms =>
    simp only
    split
    · exact mapGet_mapDelete_ne a r room hne
    · exact mapGet_mapSet_ne a r room _ hne

theorem mapGet_none_of_not_key {β : Type} (m : List (String × β)) (k : String)
    (h : k ∉ m.map Prod.fst) : mapGet m k = none := by
  induction m with
  | nil => rfl
  | cons e es ih =>
    simp only [List.map_cons, List.mem_cons, not_or] at h
    have he : ¬ e.1 = k := fun e2 => h.1 e2.symm
    simp only [mapGet, if_neg he]
    exact ih h.2

theorem keys_adapterLeaveAll (a : List (String × List String)) (c k : String)
    (h : k ∈ (adapterLeaveAll a c).map Prod.fst) : k ∈ a.map Prod.fst := by
  induction a with
  | nil => simp [adapterLeaveAll] at h
  | cons e es ih =>
    unfold adapterLeaveAll at h ih
    rw [List.filterMap_cons] at h
    simp only [List.map_cons, List.mem_cons]
    split at h
    · exact Or.inr (ih h)
    · rename_i b hb
      simp only [List.map_cons, List.mem_cons] at h
      rcases h with h | h
      · left
        rw [h]
        split at hb
        · dsimp only at hb
          split at hb
          · exact absurd hb (by simp)
          · simp only [Option.some.injEq] at hb
            rw [← hb]
        · simp only [Option.some.injEq] at hb
          rw [← hb]
      · exact Or.inr (ih h)

theorem members_adapterLeaveAll (a : List (String × List String)) (c room : String)
    (hk : (a.map Prod.fst).Nodup) :
    (mapGet (adapterLeaveAll a c) room).getD [] =
      ((mapGet a room).getD []).filter (fun m => m != c) := by
  induction a with
  | nil => rfl
  | cons e es ih =>
    rw [List.map_cons, List.nodup_cons] at hk
    have ih2 := ih hk.2
    unfold adapterLeaveAll at ih2 ⊢
    rw [List.filterMap_cons]
    by_cases her : e.1 = room
    · -- the entry of `room`: no later entry has this name
      have hnone : mapGet (adapterLeaveAll es c) room = none := by
        apply mapGet_none_of_not_key
        intro hmem
        exact hk.1 (her ▸ keys_adapterLeaveAll es c room hmem)
      unfold adapterLeaveAll at hnone
      simp only [mapGet, if_pos her, Option.getD_some]
      by_cases hc : c ∈ e.2
      · simp only [hc, if_true]
        by_cases hemp : (e.2.filter (fun m => m != c)).isEmpty = true
        · simp only [hemp, if_true, hnone, Option.getD_none]
          simpa using hemp.symm
        · simp only [hemp, Bool.false_eq_true, if_false, mapGet, if_pos her, Option.getD_some]
      · simp only [hc, if_false, mapGet, if_pos her, Option.getD_some]
        symm
        rw [List.filter_eq_self]
        intro x hx
        have : x ≠ c := fun h => hc (h ▸ hx)
        simpa using this
    · by_cases hc : c ∈ e.2
      · simp only [hc, if_true]
        by_cases hemp : (e.2.filter (fun m => m != c)).isEmpty = true
        · simp only [hemp, if_true, mapGet, if_neg her]
          exact ih2
        · simp only [hemp, Bool.false_eq_true, if_false, mapGet, if_neg her]
          exact ih2
      · simp only [hc, if_false, mapGet, if_neg her]
        exact ih2

theorem cleanupRoom_eq (rooms : List (String × RoomInfo)) (a : List (String × List String))
    (r : String) :
    cleanupRoom rooms a r =
      if (mapGet a r).getD [] = [] then mapDelete rooms r else rooms := by
  unfold cleanupRoom
  cases h : mapGet a r with
  | none => simp
  | some ms => cases ms <;> simp

theorem mapHas_clearSocketRoom (m : List (String × SocketData)) (c k : String) :
    mapHas (clearSocketRoom m c) k = mapHas m k := by
  induction m with
  | nil => rfl
  | cons e es ih =>
    unfold mapHas at ih ⊢
    simp only [clearSocketRoom, List.map_cons, List.any_cons] at ih ⊢
    rw [ih]
    by_cases he : e.1 = c <;> simp [he]

theorem mapGet_clearSocketRoom_self (m : List (String × SocketData)) (c : String) :
    mapGet (clearSocketRoom m c) c =
      (mapGet m c).map (fun d => { d with roomId := JsVal.null }) := by
  induction m with
  | nil => rfl
  | cons e es ih =>
    simp only [clearSocketRoom, List.map_cons] at ih ⊢
    by_cases he : e.1 = c
    · simp only [if_pos he, mapGet, Option.map_some']
    · simp only [if_neg he, mapGet, ih]

theorem or_or_user (n : JsVal) : (n.or n).or (.str "User") = n.or (.str "User") := by
  unfold JsVal.or
  cases h : n.truthy <;> simp [h]

theorem WF_members (s : Relay) (hwf : s.WF) (room : String) :
    (s.members room).Nodup ∧ ∀ id ∈ s.members room, mapHas s.sockets id = true := by
  unfold Relay.members
  cases hg : mapGet s.adapterRooms room with
  | none => exact ⟨List.nodup_nil, fun id h => absurd h (List.not_mem_nil id)⟩
  | some ms => exact hwf _ (mapGet_mem _ _ _ hg)

theorem recipients_eq_peers (s : Relay) (hwf : s.WF) (room c : String) :
    s.recipients room (some c) = s.peers room c := by
  unfold Relay.recipients Relay.peers
  apply List.filter_congr
  intro id hid
  rw [(WF_members s hwf room).2 id hid, Bool.and_true]
  by_cases hidc : id = c
  · simp [hidc]
  · have : ¬ c = id := fun h => hidc h.symm
    simp [hidc, this]

theorem leaveRoom_members_self (s : Relay) (c r : String) (name : JsVal) :
    (leaveRoom s c r name).1.members r = s.peers r c :=
  members_adapterLeave_self s.adapterRooms r c

theorem leaveRoom_members_ne (s : Relay) (c r : String) (name : JsVal) (room : String)
    (hne : room ≠ r) : (leaveRoom s c r name).1.members room = s.members room := by
  show (mapGet (adapterLeave s.adapterRooms r c) room).getD [] = _
  rw [mapGet_adapterLeave_ne _ _ _ _ hne]
  rfl

theorem leaveRoom_rooms (s : Relay) (c r : String) (name : JsVal) :
    (leaveRoom s c r name).1.rooms =
      if s.peers r c = [] then mapDelete s.rooms r else s.rooms := by
  show cleanupRoom s.rooms (adapterLeave s.adapterRooms r c) r = _
  rw [cleanupRoom_eq, members_adapterLeave_self]
  rfl

theorem peers_eq_self_of_not_mem (s : Relay) (r c : String) (h : c ∉ s.members r) :
    s.peers r c = s.members r := by
  unfold Relay.peers
  rw [List.filter_eq_self]
  intro x hx
  have : x ≠ c := fun e => h (e ▸ hx)
  simpa using this

/-! ## Invariants of the reachable relay states -/

theorem keys_mapSet {β : Type} (m : List (String × β)) (k : String) (v : β) :
    (mapSet m k v).map Prod.fst =
      if k ∈ m.map Prod.fst then m.map Prod.fst else m.map Prod.fst ++ [k] := by
  induction m with
  | nil => simp [mapSet]
  | cons e es ih =>
    by_cases h : e.1 = k
    · simp [mapSet, h]
    · have hk : ¬ k = e.1 := fun e2 => h e2.symm
      simp only [mapSet, if_neg h, List.map_cons, ih, List.mem_cons, hk, false_or]
      split <;> simp

theorem nodup_keys_mapSet {β : Type} (m : List (String × β)) (k : String) (v : β)
    (h : (m.map Prod.fst).Nodup) : ((mapSet m k v).map Prod.fst).Nodup := by
  rw [keys_mapSet]
  split
  · exact h
  · rename_i hk
    exact List.Nodup.append h (List.nodup_singleton k)
      (by intro x hx hx2; rw [List.mem_singleton] at hx2; exact hk (hx2 ▸ hx))

theorem nodup_keys_mapDelete {β : Type} (m : List (String × β)) (k : String)
    (h : (m.map Prod.fst).Nodup) : ((mapDelete m k).map Prod.fst).Nodup := by
  unfold mapDelete
  exact List.Nodup.sublist (List.Sublist.map _ (List.filter_sublist m)) h

theorem nodup_keys_adapterJoin (a : List (String × List String)) (room id : String)
    (h : (a.map Prod.fst).Nodup) : ((adapterJoin a room id).map Prod.fst).Nodup := by
  unfold adapterJoin
  split
  · exact nodup_keys_mapSet a room _ h
  · split
    · exact h
    · exact nodup_keys_mapSet a room _ h

theorem nodup_keys_adapterLeave (a : List (String × List String)) (room id : String)
    (h : (a.map Prod.fst).Nodup) : ((adapterLeave a room id).map Prod.fst).Nodup := by
  unfold adapterLeave
  split
  · exact h
  · simp only
    split
    · exact nodup_keys_mapDelete a room h
    · exact nodup_keys_mapSet a room _ h

theorem nodup_keys_adapterLeaveAll (a : List (String × List String)) (c : String)
    (h : (a.map Prod.fst).Nodup) : ((adapterLeaveAll a c).map Prod.fst).Nodup := by
  induction a with
  | nil => exact List.nodup_nil
  | cons e es ih =>
    rw [List.map_cons, List.nodup_cons] at h
    have hrest := ih h.2
    have hnot : e.1 ∉ (adapterLeaveAll es c).map Prod.fst :=
      fun hm => h.1 (keys_adapterLeaveAll es c e.1 hm)
    unfold adapterLeaveAll at hrest hnot ⊢
    rw [List.filterMap_cons]
    by_cases hc : c ∈ e.2
    · simp only [hc, if_true]
      by_cases hemp : (e.2.filter (fun m => m != c)).isEmpty = true
      · simp only [hemp, if_true]
        exact hrest
      · simp only [hemp, Bool.false_eq_true, if_false, List.map_cons]
        exact List.nodup_cons.mpr ⟨hnot, hrest⟩
    · simp only [hc, if_false, List.map_cons]
      exact List.nodup_cons.mpr ⟨hnot, hrest⟩

theorem mem_adapterLeave (a : List (String × List String)) (room id : String)
    (e : String × List String) (h : e ∈ adapterLeave a room id) :
    e ∈ a ∨ ∃ ms, (room, ms) ∈ a ∧ e = (room, ms.filter (fun m => m != id)) := by
  unfold adapterLeave at h
  cases hg : mapGet a room with
  | none => rw [hg] at h; exact Or.inl h
  | some ms =>
    rw [hg] at h
    simp only at h
    split at h
    · unfold mapDelete at h
      exact Or.inl (List.mem_filter.mp h).1
    · rcases mem_mapSet _ _ _ _ h with h2 | h2
      · exact Or.inl h2
      · exact Or.inr ⟨ms, mapGet_mem _ _ _ hg, h2⟩

theorem mem_adapterLeaveAll (a : List (String × List String)) (c : String)
    (e2 : String × List String) (h : e2 ∈ adapterLeaveAll a c) :
    ∃ e ∈ a, e2 = (e.1, e.2.filter (fun m => m != c)) := by
  unfold adapterLeaveAll at h
  rw [List.mem_filterMap] at h
  obtain ⟨e, he, hf⟩ := h
  refine ⟨e, he, ?_⟩
  by_cases hc : c ∈ e.2
  · simp only [hc, if_true] at hf
    split at hf
    · exact absurd hf (by simp)
    · simp only [Option.some.injEq] at hf
      exact hf.symm
  · simp only [hc, if_false, Option.some.injEq] at hf
    rw [← hf]
    have hid : e.2.filter (fun m => m != c) = e.2 := by
      rw [List.filter_eq_self]
      intro x hx
      have : x ≠ c := fun h2 => hc (h2 ▸ hx)
      simpa using this
    rw [hid]

theorem WF_leaveRoom (s : Relay) (c r : String) (name : JsVal) (hwf : s.WF) :
    (leaveRoom s c r name).1.WF := by
  intro e he
  have he2 : e ∈ adapterLeave s.adapterRooms r c := he
  show e.2.Nodup ∧ ∀ id ∈ e.2, mapHas (clearSocketRoom s.sockets c) id = true
  rcases mem_adapterLeave _ _ _ _ he2 with h | ⟨ms, hms, h⟩
  · exact ⟨(hwf e h).1, fun id hid => by rw [mapHas_clearSocketRoom]; exact (hwf e h).2 id hid⟩
  · rw [h]
    refine ⟨List.Nodup.filter _ (hwf _ hms).1, fun id hid => ?_⟩
    rw [mapHas_clearSocketRoom]
    exact (hwf _ hms).2 id (List.mem_filter.mp hid).1

theorem disconnect_state (s : Relay) (c : String) :
    (disconnect s c).1.adapterRooms = adapterLeaveAll s.adapterRooms c ∧
    (disconnect s c).1.sockets = mapDelete s.sockets c := by
  unfold disconnect
  simp only
  split
  · split <;> exact ⟨rfl, rfl⟩
  · exact ⟨rfl, rfl⟩

theorem WF_disconnect (s : Relay) (c : String) (hwf : s.WF) : (disconnect s c).1.WF := by
  intro e2 he2
  rw [(disconnect_state s c).1] at he2
  rw [(disconnect_state s c).2]
  obtain ⟨e, he, heq⟩ := mem_adapterLeaveAll _ _ _ he2
  rw [heq]
  refine ⟨List.Nodup.filter _ (hwf e he).1, fun id hid => ?_⟩
  obtain ⟨hid1, hid2⟩ := List.mem_filter.mp hid
  have hne : id ≠ c := by simpa using hid2
  rw [mapHas_mapDelete_ne s.sockets c id hne]
  exact (hwf e he).2 id hid1

theorem joinRoom_adapter (s : Relay) (c : String) (req : JoinReq) (rnd : List Nat) :
    (joinRoom s c req rnd).1.adapterRooms = s.adapterRooms ∨
    (joinRoom s c req rnd).1.adapterRooms = adapterJoin s.adapterRooms req.roomId c := by
  cases hd : isDenied (joinRoom s c req rnd) with
  | false =>
    obtain ⟨rooms1, info, he⟩ := joinRoom_admitted s c req rnd hd
    right
    rw [he]
  | true =>
    left
    cases hh : mapHas s.rooms req.roomId with
    | false =>
      rw [joinRoom_fresh s c req rnd hh, isDenied_admitted] at hd
      exact absurd hd (by decide)
    | true =>
      obtain ⟨info, hinfo⟩ := mapGet_of_mapHas s.rooms req.roomId hh
      have hd2 := joinRoom_existing_denied s c req rnd info hinfo
      rw [hd] at hd2
      rw [joinRoom_existing s c req rnd info hinfo, if_pos hd2.symm]

/-- Every event keeps the adapter well formed and with one entry per room name. -/
theorem step_invariant (s : Relay) (ev : Event) (h : s.WF ∧ s.KeysNodup) :
    (step s ev).WF ∧ (step s ev).KeysNodup := by
  obtain ⟨hwf, hk⟩ := h
  unfold Relay.KeysNodup at hk ⊢
  cases ev with
  | connect id =>
    simp only [step]
    split
    · exact ⟨hwf, hk⟩
    · exact ⟨WF_connect s id hwf, nodup_keys_adapterJoin s.adapterRooms id id hk⟩
  | joinRoom c req rnd =>
    simp only [step]
    split
    · rename_i hc
      refine ⟨WF_joinRoom s c req rnd hwf hc, ?_⟩
      rcases joinRoom_adapter s c req rnd with h | h
      · rw [h]; exact hk
      · rw [h]; exact nodup_keys_adapterJoin _ _ _ hk
    · exact ⟨hwf, hk⟩
  | signal c toId data =>
    simp only [step]
    split <;> exact ⟨hwf, hk⟩
  | leaveRoom c roomId name =>
    simp only [step]
    split
    · exact ⟨WF_leaveRoom s c roomId name hwf, nodup_keys_adapterLeave _ _ _ hk⟩
    · exact ⟨hwf, hk⟩
  | disconnect c =>
    simp only [step]
    split
    · refine ⟨WF_disconnect s c hwf, ?_⟩
      rw [(disconnect_state s c).1]
      exact nodup_keys_adapterLeaveAll _ _ hk
    · exact ⟨hwf, hk⟩

theorem foldl_step_invariant (events : List Event) (s : Relay) (h : s.WF ∧ s.KeysNodup) :
    (events.foldl step s).WF ∧ (events.foldl step s).KeysNodup := by
  induction events generalizing s with
  | nil => exact h
  | cons ev evs ih => exact ih (step s ev) (step_invariant s ev h)

/-- Every relay state reached from the empty state is well formed, with one adapter entry per
room name. -/
theorem run_invariant (events : List Event) : (run events).WF ∧ (run events).KeysNodup :=
  foldl_step_invariant events Relay.empty ⟨WF_empty, List.nodup_nil⟩

/-! ## String comparison -/

theorem char_toNat_valid (c : Char) :
    c.toNat < 55296 ∨ (57343 < c.toNat ∧ c.toNat < 1114112) := c.valid

theorem char_toNat_inj (c d : Char) (h : c.toNat = d.toNat) : c = d := by
  rw [← Char.ofNat_toNat c, ← Char.ofNat_toNat d, h]

theorem utf16Char_append_inj (c d : Char) (xs ys : List Nat)
    (h : utf16Char c ++ xs = utf16Char d ++ ys) : c = d ∧ xs = ys := by
  have hc := char_toNat_valid c
  have hd := char_toNat_valid d
  unfold utf16Char at h
  by_cases h1 : c.toNat < 65536 <;> by_cases h2 : d.toNat < 65536
  · simp only [h1, h2, if_true, List.singleton_append, List.cons.injEq] at h
    exact ⟨char_toNat_inj c d h.1, h.2⟩
  · simp only [h1, h2, if_true, if_false, List.singleton_append, List.cons_append,
      List.cons.injEq] at h
    exfalso
    have := h.1
    omega
  · simp only [h1, h2, if_true, if_false, List.singleton_append, List.cons_append,
      List.cons.injEq] at h
    exfalso
    have := h.1
    omega
  · simp only [h1, h2, if_false, List.cons_append, List.nil_append, List.cons.injEq] at h
    refine ⟨char_toNat_inj c d ?_, h.2.2⟩
    have h3 := h.1
    have h4 := h.2.1
    omega

theorem utf16_data_inj : ∀ (l m : List Char),
    l.flatMap utf16Char = m.flatMap utf16Char → l = m
  | [], [] => fun _ => rfl
  | [], d :: ds => by
    intro h
    exfalso
    simp only [List.flatMap_nil, List.flatMap_cons] at h
    unfold utf16Char at h
    split at h <;> simp at h
  | c :: cs, [] => by
    intro h
    exfalso
    simp only [List.flatMap_nil, List.flatMap_cons] at h
    unfold utf16Char at h
    split at h <;> simp at h
  | c :: cs, d :: ds => by
    intro h
    simp only [List.flatMap_cons] at h
    obtain ⟨h1, h2⟩ := utf16Char_append_inj c d _ _ h
    rw [h1, utf16_data_inj cs ds h2]

theorem utf16_inj (a b : String) (h : utf16 a = utf16 b) : a = b := by
  cases a with
  | mk l =>
    cases b with
    | mk m =>
      have := utf16_data_inj l m h
      rw [this]

theorem unitsGt_asymm : ∀ (x y : List Nat), unitsGt x y = true → unitsGt y x = false
  | [], _ => by simp [unitsGt]
  | _ :: _, [] => by simp [unitsGt]
  | a :: as, b :: bs => by
    intro h
    by_cases hab : a = b
    · subst hab
      simp only [unitsGt, if_true] at h ⊢
      exact unitsGt_asymm as bs h
    · have hba : ¬ b = a := fun e => hab e.symm
      simp only [unitsGt, if_neg hab, if_neg hba, decide_eq_true_eq, decide_eq_false_iff_not]
        at h ⊢
      omega

theorem unitsGt_total : ∀ (x y : List Nat), x ≠ y → unitsGt x y = true ∨ unitsGt y x = true
  | [], [] => fun h => absurd rfl h
  | [], _ :: _ => fun _ => Or.inr (by simp [unitsGt])
  | _ :: _, [] => fun _ => Or.inl (by simp [unitsGt])
  | a :: as, b :: bs => by
    intro h
    by_cases hab : a = b
    · subst hab
      simp only [unitsGt, if_true]
      exact unitsGt_total as bs (fun e => h (by rw [e]))
    · have hba : ¬ b = a := fun e => hab e.symm
      simp only [unitsGt, if_neg hab, if_neg hba, decide_eq_true_eq]
      omega

theorem strGt_asymm (a b : String) (h : strGt a b = true) : strGt b a = false :=
  unitsGt_asymm _ _ h

theorem strGt_total (a b : String) (h : a ≠ b) : strGt a b = true ∨ strGt b a = true :=
  unitsGt_total _ _ (fun e => h (utf16_inj a b e))

theorem strGt_flip (a b : String) (h : a ≠ b) : strGt a b = !strGt b a := by
  rcases strGt_total a b h with h1 | h1
  · rw [h1, strGt_asymm a b h1]; rfl
  · rw [h1, strGt_asymm b a h1]; rfl

theorem isPolite_some (a b : String) (ha : a ≠ "") : isPolite (some a) b = strGt a b := by
  simp [isPolite, ha]

/-! ## The description branch of the signal handler -/

theorem ensurePeer_of_link {PC : Type} (T : Transport PC) (st : Client PC) (r : String)
    (pc : PC) (hlink : mapGet st.pcs r = some pc) : ensurePeer T st r = (st, pc) := by
  simp only [ensurePeer, hlink]

/-- The test `ignoreThisOffer` of the handler, on the link `pc` of remote `r`. -/
theorem ignoreThisOffer_iff {PC : Type} (T : Transport PC) (st : Client PC) (r : String)
    (pc : PC) (d : Description) :
    (!isPolite st.socketId r && (d.type == .offer &&
      ((mapGet st.makingOffer r).getD false || T.signalingState pc != .stable))) = true ↔
    (d.type = .offer ∧ (mapGet st.makingOffer r = some true ∨ T.signalingState pc ≠ .stable) ∧
      isPolite st.socketId r = false) := by
  cases hp : isPolite st.socketId r <;> cases hm : mapGet st.makingOffer r with
  | none => simp
  | some b => cases b <;> simp

theorem onSignal_description_ignored {PC : Type} (T : Transport PC) (st : Client PC)
    (r : String) (pc : PC) (d : Description) (hlink : mapGet st.pcs r = some pc)
    (h : (!isPolite st.socketId r && (d.type == .offer &&
      ((mapGet st.makingOffer r).getD false || T.signalingState pc != .stable))) = true) :
    onSignal T st r (.description (some d)) = ⟨st, [], false⟩ := by
  simp only [onSignal, ensurePeer_of_link T st r pc hlink, h, if_true]

theorem onSignal_description_applied {PC : Type} (T : Transport PC) (st : Client PC)
    (r : String) (pc : PC) (d : Description) (hlink : mapGet st.pcs r = some pc)
    (h : (!isPolite st.socketId r && (d.type == .offer &&
      ((mapGet st.makingOffer r).getD false || T.signalingState pc != .stable))) = false) :
    onSignal T st r (.description (some d)) =
      match T.setRemoteDescription pc d with
      | none => ⟨st, [.setRemoteDescription r d], true⟩
      | some pc1 =>
        if d.type == .offer then
          match T.setLocalDescription (attachLocalTracksToPC T st.localStream pc1) with
          | none =>
            ⟨{ st with pcs := mapSet st.pcs r (attachLocalTracksToPC T st.localStream pc1) },
              [.setRemoteDescription r d, .setLocalDescription r], true⟩
          | some pc3 =>
            ⟨{ st with pcs := mapSet st.pcs r pc3 },
              [.setRemoteDescription r d, .setLocalDescription r,
                .emit r (.description (T.localDescription pc3))], false⟩
        else ⟨{ st with pcs := mapSet st.pcs r pc1 }, [.setRemoteDescription r d], false⟩ := by
  simp only [onSignal, ensurePeer_of_link T st r pc hlink, h, Bool.false_eq_true, if_false]

/-! ## The signaling-state transport -/

theorem jsep_attach_fold (o a : String) (senders : List String) (tracks : List Track)
    (pc : JsepPC) :
    ∃ ks, tracks.foldl (fun p track => if senders.any (fun k => k == track.kind) then p
      else (jsep o a).addTrack p track) pc = { pc with senders := ks } := by
  induction tracks generalizing pc with
  | nil => exact ⟨pc.senders, rfl⟩
  | cons t ts ih =>
    simp only [List.foldl_cons]
    split
    · exact ih pc
    · obtain ⟨ks, hks⟩ := ih ((jsep o a).addTrack pc t)
      exact ⟨ks, by rw [hks]; rfl⟩

theorem jsep_attach (o a : String) (stream : Option (List Track)) (pc : JsepPC) :
    ∃ ks, attachLocalTracksToPC (jsep o a) stream pc = { pc with senders := ks } := by
  cases stream with
  | none => exact ⟨pc.senders, rfl⟩
  | some tracks => exact jsep_attach_fold o a _ tracks pc

theorem jsep_setRemote_offer (o a : String) (pc : JsepPC) (d : Description)
    (hd : d.type = .offer) (hs : pc.signalingState = .haveLocalOffer) :
    (jsep o a).setRemoteDescription pc d =
      some { pc with signalingState := .haveRemoteOffer
                     pendingLocal := none
                     pendingRemote := some d } := by
  simp only [jsep, hd, hs]

theorem jsep_setRemote_answer (o a : String) (pc : JsepPC) (d : Description)
    (hd : d.type = .answer) (hs : pc.signalingState = .haveLocalOffer) :
    (jsep o a).setRemoteDescription pc d =
      some { pc with signalingState := .stable
                     currentLocal := pc.pendingLocal
                     currentRemote := some d
                     pendingLocal := none
                     pendingRemote := none } := by
  simp only [jsep, hd, hs]

theorem jsep_setLocal_answer (o a : String) (pc : JsepPC)
    (hs : pc.signalingState = .haveRemoteOffer) :
    (jsep o a).setLocalDescription pc =
      some { pc with signalingState := .stable
                     currentLocal := some ⟨.answer, a⟩
                     currentRemote := pc.pendingRemote
                     pendingLocal := none
                     pendingRemote := none } := by
  simp only [jsep, hs]

/-- Glare between an impolite client `sti` and a polite client `stp`, both awaiting the answer
to their own offer. -/
theorem glare_case (oi ai op ap : String) (sti stp : Client JsepPC) (i p : String)
    (offI offP : Description)
    (hpi : isPolite sti.socketId p = false) (hpp : isPolite stp.socketId i = true)
    (hI : HasIssuedOffer sti p offI) (hP : HasIssuedOffer stp i offP) :
    GlareResolved (jsep oi ai) (jsep op ap) sti stp i p offI offP ⟨.answer, ap⟩ := by
  unfold HasIssuedOffer at hI hP
  cases hlI : mapGet sti.pcs p with
  | none => rw [hlI] at hI; exact absurd hI id
  | some pcI =>
    cases hlP : mapGet stp.pcs i with
    | none => rw [hlP] at hP; exact absurd hP id
    | some pcP =>
      rw [hlI] at hI
      rw [hlP] at hP
      obtain ⟨hsI, hplI, htI⟩ := hI
      obtain ⟨hsP, hplP, htP⟩ := hP
      -- the impolite side ignores the offer of the polite side
      have h1 : onSignal (jsep oi ai) sti p (.description (some offP)) = ⟨sti, [], false⟩ := by
        apply onSignal_description_ignored (jsep oi ai) sti p pcI offP hlI
        have hst : (jsep oi ai).signalingState pcI = .haveLocalOffer := hsI
        simp [hpi, htP, hst]
      -- the polite side applies the offer of the impolite side and answers it
      obtain ⟨ks, hks⟩ := jsep_attach op ap stp.localStream
        { pcP with signalingState := .haveRemoteOffer
                   pendingLocal := none
                   pendingRemote := some offI }
      have h2 := onSignal_description_applied (jsep op ap) stp i pcP offI hlP
        (by simp [hpp])
      rw [jsep_setRemote_offer op ap pcP offI htI hsP] at h2
      have hb : (offI.type == SdpType.offer) = true := by simp [htI]
      simp only [hb, if_true, hks] at h2
      rw [jsep_setLocal_answer op ap _ rfl] at h2
      simp only at h2
      -- the impolite side applies the answer
      have h3 := onSignal_description_applied (jsep oi ai) sti p pcI ⟨.answer, ap⟩ hlI
        (by simp)
      rw [jsep_setRemote_answer oi ai pcI ⟨.answer, ap⟩ rfl hsI] at h3
      have hb3 : (SdpType.answer == SdpType.offer) = false := by decide
      simp only [hb3, Bool.false_eq_true, if_false] at h3
      refine ⟨hpi, hpp, h1, ?_, ?_, rfl, ?_, ?_, ?_, ?_⟩
      · rw [h2]; rfl
      · rw [h2]
      · rw [h2]
        simp only [mapGet_mapSet_self]
        rfl
      · rw [h3]
      · rw [h3]
      · rw [h3]
        simp only [mapGet_mapSet_self, Option.map_some', hplI]

/-! ## Links created on demand -/

theorem ensurePeer_has {PC : Type} (T : Transport PC) (st : Client PC) (r : String) :
    mapGet (ensurePeer T st r).1.pcs r = some (ensurePeer T st r).2 := by
  unfold ensurePeer
  cases h : mapGet st.pcs r with
  | some pc => exact h
  | none => exact mapGet_mapSet_self _ _ _

theorem ensurePeer_idem {PC : Type} (T : Transport PC) (st : Client PC) (r : String) :
    ensurePeer T (ensurePeer T st r).1 r = ensurePeer T st r := by
  have h := ensurePeer_has T st r
  rw [ensurePeer_of_link T (ensurePeer T st r).1 r (ensurePeer T st r).2 h]

theorem ensurePeer_fresh {PC : Type} (T : Transport PC) (st : Client PC) (r : String)
    (h : mapGet st.pcs r = none) :
    ensurePeer T st r =
      ({ st with pcs := mapSet st.pcs r (attachLocalTracksToPC T st.localStream T.create) },
        attachLocalTracksToPC T st.localStream T.create) := by
  simp only [ensurePeer, h]

/-- A description or a candidate is handled as on the state in which the link exists. -/
theorem onSignal_description_ensured {PC : Type} (T : Transport PC) (st : Client PC)
    (r : String) (d : Description) :
    onSignal T st r (.description (some d)) =
      onSignal T (ensurePeer T st r).1 r (.description (some d)) := by
  simp only [onSignal, ensurePeer_idem]

theorem onSignal_candidate_ensured {PC : Type} (T : Transport PC) (st : Client PC)
    (r : String) (cand : Candidate) :
    onSignal T st r (.candidate cand) = onSignal T (ensurePeer T st r).1 r (.candidate cand) := by
  simp only [onSignal, ensurePeer_idem]

theorem mapHas_mapSet_self {β : Type} (m : List (String × β)) (k : String) (v : β) :
    mapHas (mapSet m k v) k = true := by
  rw [mapHas_mapSet]; simp

theorem onSignal_description_has_link {PC : Type} (T : Transport PC) (st : Client PC)
    (r : String) (d : Description) :
    mapHas (onSignal T st r (.description (some d))).state.pcs r = true := by
  have hl : mapHas (ensurePeer T st r).1.pcs r = true := by
    rw [mapHas_eq_isSome, ensurePeer_has]; rfl
  simp only [onSignal]
  split
  · exact hl
  · split
    · exact hl
    · split
      · split
        · exact mapHas_mapSet_self _ _ _
        · exact mapHas_mapSet_self _ _ _
      · exact mapHas_mapSet_self _ _ _

theorem onSignal_candidate_has_link {PC : Type} (T : Transport PC) (st : Client PC)
    (r : String) (cand : Candidate) :
    mapHas (onSignal T st r (.candidate cand)).state.pcs r = true ∧
    (onSignal T st r (.candidate cand)).acts = [.addIceCandidate r cand] := by
  have hl : mapHas (ensurePeer T st r).1.pcs r = true := by
    rw [mapHas_eq_isSome, ensurePeer_has]; rfl
  simp only [onSignal]
  split
  · exact ⟨hl, rfl⟩
  · exact ⟨mapHas_mapSet_self _ _ _, rfl⟩
/-! ## The relay's access control (join-room) -/

/-- C1: on a room that has a registry entry, a join-room request is denied exactly when the
stored room is private and the supplied token is missing or empty or differs from the stored
token; a denied request emits `join-denied` to the requester and returns with the state as it
was, an admitted one leaves the requester a member of the room. In particular a public room
admits every request and a private room admits the exact (non-empty) stored token. -/
theorem join_existing_denied_iff (s : Relay) (c : String) (req : JoinReq) (rnd : List Nat)
    (info : RoomInfo) (h : mapGet s.rooms req.roomId = some info) :
    (isDenied (joinRoom s c req rnd) = true ↔
      info.isPrivate = true ∧
        ((req.token = .undefined ∨ req.token = .null ∨ req.token = .str "") ∨
          req.token ≠ info.tokenVal)) ∧
    (isDenied (joinRoom s c req rnd) = true →
      (joinRoom s c req rnd).2 = [(c, Msg.joinDenied deniedMessage)] ∧
      (joinRoom s c req rnd).1 = s) ∧
    (isDenied (joinRoom s c req rnd) = false →
      c ∈ (joinRoom s c req rnd).1.members req.roomId) ∧
    (info.isPrivate = false → isDenied (joinRoom s c req rnd) = false) ∧
    (∀ t : String, info.isPrivate = true → info.token = some t → t ≠ "" →
      req.token = .str t → isDenied (joinRoom s c req rnd) = false) := by
  have hd := joinRoom_existing_denied s c req rnd info h
  have he := joinRoom_existing s c req rnd info h
  refine ⟨?_, ?_, ?_, ?_, ?_⟩
  · rw [hd, Bool.and_eq_true, badToken_iff]
  · intro hden
    rw [hd] at hden
    rw [he, if_pos hden]
    exact ⟨rfl, rfl⟩
  · intro hadm
    rw [hd] at hadm
    rw [he, if_neg (by simp [hadm])]
    exact mem_members_adapterJoin s.adapterRooms req.roomId c
  · intro hpub
    rw [hd, hpub, Bool.false_and]
  · intro t hpriv htok hne hreq
    rw [hd, hreq, htok]
    simp [JsVal.truthy, tokenStrictEq, hne]

/-- C1, at a concrete state: room `r` is private with token `t0`; a request with the token
`t0` is admitted. -/
theorem join_existing_denied_iff_witness :
    isDenied (joinRoom ⟨[("r", ⟨true, some "t0"⟩)], [("a", ["a"]), ("b", ["b"]), ("r", ["a"])],
        [("a", ⟨.str "r", .str "Ann"⟩), ("b", ⟨.undefined, .undefined⟩)]⟩
      "b" ⟨"r", .str "Bob", .undefined, .str "t0"⟩ []) = false :=
  (join_existing_denied_iff
    ⟨[("r", ⟨true, some "t0"⟩)], [("a", ["a"]), ("b", ["b"]), ("r", ["a"])],
      [("a", ⟨.str "r", .str "Ann"⟩), ("b", ⟨.undefined, .undefined⟩)]⟩
    "b" ⟨"r", .str "Bob", .undefined, .str "t0"⟩ [] ⟨true, some "t0"⟩
    (by simp [mapGet])).2.2.2.2 "t0" rfl rfl (by decide) rfl

/-- C2: on a room that has no registry entry, join-room creates the entry with `isPrivate` the
requested flag coerced to a boolean and with token the 16 bytes of the random source rendered
as 32 hexadecimal characters when private, `null` when public; the requester becomes a member
and no `join-denied` is emitted, whatever token the request carries. -/
theorem join_fresh_creates (s : Relay) (c : String) (req : JoinReq) (rnd : List Nat)
    (h : mapHas s.rooms req.roomId = false) (hr : rnd.length = 16) :
    mapGet (joinRoom s c req rnd).1.rooms req.roomId =
      some { isPrivate := req.isPrivate.truthy
             token := if req.isPrivate.truthy then some (toHex rnd) else none } ∧
    (toHex rnd).length = 32 ∧
    (∀ ch ∈ (toHex rnd).data, isHexChar ch = true) ∧
    c ∈ (joinRoom s c req rnd).1.members req.roomId ∧
    isDenied (joinRoom s c req rnd) = false := by
  rw [joinRoom_fresh s c req rnd h]
  refine ⟨mapGet_mapSet_self _ _ _, ?_, toHex_isHex rnd, ?_, isDenied_admitted _ _ _ _ _ _⟩
  · rw [toHex_length, hr]
  · exact mem_members_adapterJoin s.adapterRooms req.roomId c

/-- C2, at a concrete state: the first join of room `r`, private, without a token. -/
theorem join_fresh_creates_witness :
    mapGet (joinRoom ⟨[], [("a", ["a"])], [("a", ⟨.undefined, .undefined⟩)]⟩ "a"
        ⟨"r", .str "Ann", .bool true, .undefined⟩
        [0, 1, 2, 3, 4, 5, 6, 7, 8, 9, 10, 11, 12, 13, 14, 255]).1.rooms "r" =
      some ⟨true, some "000102030405060708090a0b0c0d0eff"⟩ :=
  (join_fresh_creates ⟨[], [("a", ["a"])], [("a", ⟨.undefined, .undefined⟩)]⟩ "a"
    ⟨"r", .str "Ann", .bool true, .undefined⟩
    [0, 1, 2, 3, 4, 5, 6, 7, 8, 9, 10, 11, 12, 13, 14, 255] rfl rfl).1.trans (by decide)

/-- C3: a join-room request on a room that has a registry entry, admitted or denied, leaves
that entry (and the whole registry) as it was, and a signal request leaves the registry as it
was. -/
theorem registry_entry_fixed (s : Relay) (c : String) (req : JoinReq) (rnd : List Nat)
    (h : mapHas s.rooms req.roomId = true) :
    mapGet (joinRoom s c req rnd).1.rooms req.roomId = mapGet s.rooms req.roomId ∧
    (joinRoom s c req rnd).1.rooms = s.rooms ∧
    (∀ (c2 toId : String) (data : SignalData), (signal s c2 toId data).1.rooms = s.rooms) := by
  obtain ⟨info, hinfo⟩ := mapGet_of_mapHas s.rooms req.roomId h
  have hrooms : (joinRoom s c req rnd).1.rooms = s.rooms := by
    rw [joinRoom_existing s c req rnd info hinfo]
    split <;> rfl
  exact ⟨by rw [hrooms], hrooms, fun _ _ _ => rfl⟩

/-- C3, at a concrete state: a join that asks for a public room and carries a wrong token
leaves the private entry of room `r` in place. -/
theorem registry_entry_fixed_witness :
    mapGet (joinRoom ⟨[("r", ⟨true, some "t0"⟩)], [("a", ["a"]), ("b", ["b"]), ("r", ["a"])],
        [("a", ⟨.str "r", .str "Ann"⟩), ("b", ⟨.undefined, .undefined⟩)]⟩
      "b" ⟨"r", .str "Bob", .bool false, .str "zz"⟩ []).1.rooms "r" =
      some ⟨true, some "t0"⟩ :=
  (registry_entry_fixed
    ⟨[("r", ⟨true, some "t0"⟩)], [("a", ["a"]), ("b", ["b"]), ("r", ["a"])],
      [("a", ⟨.str "r", .str "Ann"⟩), ("b", ⟨.undefined, .undefined⟩)]⟩
    "b" ⟨"r", .str "Bob", .bool false, .str "zz"⟩ [] (by decide)).1.trans (by decide)

/-- C4: a denied join-room request leaves the whole relay state as it was (the registry, the
members of every room, every socket's recorded roomId and name) and emits exactly one message,
a `join-denied` to the requester. -/
theorem denied_join_atomic (s : Relay) (c : String) (req : JoinReq) (rnd : List Nat)
    (h : isDenied (joinRoom s c req rnd) = true) :
    (joinRoom s c req rnd).1 = s ∧
    (joinRoom s c req rnd).1.rooms = s.rooms ∧
    (∀ room : String, (joinRoom s c req rnd).1.members room = s.members room) ∧
    mapGet (joinRoom s c req rnd).1.sockets c = mapGet s.sockets c ∧
    (joinRoom s c req rnd).2 = [(c, Msg.joinDenied deniedMessage)] := by
  cases hh : mapHas s.rooms req.roomId with
  | false =>
    rw [joinRoom_fresh s c req rnd hh] at h
    rw [isDenied_admitted] at h
    exact absurd h (by decide)
  | true =>
    obtain ⟨info, hinfo⟩ := mapGet_of_mapHas s.rooms req.roomId hh
    have hd := joinRoom_existing_denied s c req rnd info hinfo
    rw [h] at hd
    have he := joinRoom_existing s c req rnd info hinfo
    rw [if_pos hd.symm] at he
    rw [he]
    exact ⟨rfl, rfl, fun _ => rfl, rfl, rfl⟩

/-- C4, at a concrete state: a join of the private room `r` without a token. -/
theorem denied_join_atomic_witness :
    (joinRoom ⟨[("r", ⟨true, some "t0"⟩)], [("a", ["a"]), ("b", ["b"]), ("r", ["a"])],
        [("a", ⟨.str "r", .str "Ann"⟩), ("b", ⟨.undefined, .undefined⟩)]⟩
      "b" ⟨"r", .str "Bob", .bool true, .undefined⟩ []).2 =
      [("b", Msg.joinDenied deniedMessage)] :=
  (denied_join_atomic
    ⟨[("r", ⟨true, some "t0"⟩)], [("a", ["a"]), ("b", ["b"]), ("r", ["a"])],
      [("a", ⟨.str "r", .str "Ann"⟩), ("b", ⟨.undefined, .undefined⟩)]⟩
    "b" ⟨"r", .str "Bob", .bool true, .undefined⟩ [] (by decide)).2.2.2.2

/-! ## Relay forwarding and discovery -/

/-- C9, as stated, fails: with `a` and `b` both in room `r`, no connection has the id `r`, and
a signal request of `a` addressed to `r` is delivered to both `a` and `b`. -/
theorem signal_room_counterexample :
    mapHas twoInRoom.sockets "r" = false ∧
    (signal twoInRoom "a" "r" .mediaStateRequest).2 =
      [("a", Msg.signal "a" .mediaStateRequest), ("b", Msg.signal "a" .mediaStateRequest)] := by
  decide

/-- C9, amended: a signal request `{to, data}` of the connection `c` leaves the relay state
(registry, memberships) as it was and delivers one `signal` message, with `from` the id `c`
and `data` as sent, to each connected member of the socket.io room named `to` and to nobody
else. When that room holds exactly the connection `to` itself, that is one message, to it;
when the room has no member, nothing is delivered to anyone and nothing is sent back to the
sender. -/
theorem signal_forwarding (s : Relay) (c toId : String) (data : SignalData) :
    (signal s c toId data).1 = s ∧
    (signal s c toId data).2 =
      ((s.members toId).filter (fun id => mapHas s.sockets id)).map
        (fun id => (id, Msg.signal c data)) ∧
    (s.members toId = [toId] → mapHas s.sockets toId = true →
      (signal s c toId data).2 = [(toId, Msg.signal c data)]) ∧
    (s.members toId = [] → (signal s c toId data).2 = []) := by
  have hrec : s.recipients toId none = (s.members toId).filter (fun id => mapHas s.sockets id) := by
    unfold Relay.recipients
    apply List.filter_congr
    intro id _
    simp
  refine ⟨rfl, ?_, ?_, ?_⟩
  · simp only [signal, hrec]
  · intro hm hconn
    simp only [signal, hrec, hm, List.filter_cons, hconn, if_true, List.filter_nil, List.map_cons,
      List.map_nil]
  · intro hm
    simp only [signal, hrec, hm, List.filter_nil, List.map_nil]

/-- C10: on an admitted join-room request of the connected socket `c` in a well-formed relay
state, the messages emitted are one `user-joined` (with the id `c` and the requested name) to
each member of the room other than `c`, then one `room-users` to `c` whose `others` lists
exactly those members, each once, with the name recorded for it or `"User"` when that is
missing or falsy; `c` is neither notified nor listed. -/
theorem join_mutual_discovery (s : Relay) (c : String) (req : JoinReq) (rnd : List Nat)
    (hwf : s.WF) (hc : mapHas s.sockets c = true)
    (hadm : isDenied (joinRoom s c req rnd) = false) :
    (∃ info : RoomInfo, (joinRoom s c req rnd).2 =
      ((joinRoom s c req rnd).1.peers req.roomId c).map
        (fun id => (id, Msg.userJoined c req.name)) ++
      [(c, Msg.roomUsers (((joinRoom s c req rnd).1.peers req.roomId c).map
        (fun id => (id, displayName s.sockets id))) info)]) ∧
    ((joinRoom s c req rnd).1.peers req.roomId c).Nodup ∧
    c ∉ (joinRoom s c req rnd).1.peers req.roomId c ∧
    (∀ id, id ∈ (joinRoom s c req rnd).1.peers req.roomId c ↔
      id ∈ (joinRoom s c req rnd).1.members req.roomId ∧ id ≠ c) ∧
    (∀ id, id ∈ (joinRoom s c req rnd).1.peers req.roomId c ↔
      id ∈ s.members req.roomId ∧ id ≠ c) ∧
    (∀ id ∈ (joinRoom s c req rnd).1.peers req.roomId c, ∃ d : SocketData,
      mapGet s.sockets id = some d ∧
      mapGet (joinRoom s c req rnd).1.sockets id = some d ∧
      displayName s.sockets id = if d.name.truthy then d.name else .str "User") := by
  obtain ⟨rooms1, info, he⟩ := joinRoom_admitted s c req rnd hadm
  -- the members before the join
  have hms : (s.members req.roomId).Nodup ∧
      ∀ id ∈ s.members req.roomId, mapHas s.sockets id = true := by
    unfold Relay.members
    cases hg : mapGet s.adapterRooms req.roomId with
    | none => exact ⟨List.nodup_nil, fun id h => absurd h (List.not_mem_nil id)⟩
    | some ms => exact hwf _ (mapGet_mem _ _ _ hg)
  -- the members after the join
  have hmem : (joinRoom s c req rnd).1.members req.roomId =
      if c ∈ s.members req.roomId then s.members req.roomId
      else s.members req.roomId ++ [c] := by
    rw [he]
    exact members_adapterJoin s.adapterRooms req.roomId c
  have hsub : ∀ id, id ∈ (joinRoom s c req rnd).1.members req.roomId →
      id ∈ s.members req.roomId ∨ id = c := by
    intro id hid
    rw [hmem] at hid
    split at hid
    · exact Or.inl hid
    · simpa using hid
  have hsup : ∀ id, id ∈ s.members req.roomId →
      id ∈ (joinRoom s c req rnd).1.members req.roomId := by
    intro id hid
    rw [hmem]
    split
    · exact hid
    · exact List.mem_append_left _ hid
  have hnd : ((joinRoom s c req rnd).1.members req.roomId).Nodup := by
    rw [hmem]
    split
    · exact hms.1
    · rename_i hnot
      exact List.Nodup.append hms.1 (List.nodup_singleton c)
        (by intro x hx hx2; rw [List.mem_singleton] at hx2; exact hnot (hx2 ▸ hx))
  have hpeers : ∀ id, id ∈ (joinRoom s c req rnd).1.peers req.roomId c ↔
      id ∈ (joinRoom s c req rnd).1.members req.roomId ∧ id ≠ c := by
    intro id
    simp [Relay.peers]
  -- the recipients of `user-joined`
  have hp : (joinRoom s c req rnd).1.peers req.roomId c =
      ((mapGet (adapterJoin s.adapterRooms req.roomId c) req.roomId).getD []).filter
        (fun id => id != c) := by
    rw [he]; rfl
  have hrec : Relay.recipients ⟨rooms1, adapterJoin s.adapterRooms req.roomId c,
        setSocketData s.sockets c { roomId := .str req.roomId, name := req.name }⟩
        req.roomId (some c) =
      ((mapGet (adapterJoin s.adapterRooms req.roomId c) req.roomId).getD []).filter
        (fun id => id != c) := by
    unfold Relay.recipients
    apply List.filter_congr
    intro id hid
    have hid2 : id ∈ (joinRoom s c req rnd).1.members req.roomId := by rw [he]; exact hid
    have hconn : mapHas s.sockets id = true := by
      rcases hsub id hid2 with h | h
      · exact hms.2 id h
      · rw [h]; exact hc
    simp only [mapHas_setSocketData, hconn, Bool.and_true]
    by_cases hidc : id = c
    · simp [hidc]
    · have : ¬ c = id := fun h => hidc h.symm
      simp [hidc, this]
  have hdisp : (((mapGet (adapterJoin s.adapterRooms req.roomId c) req.roomId).getD []).filter
        (fun id => id != c)).map (fun id => (id, displayName
          (setSocketData s.sockets c { roomId := .str req.roomId, name := req.name }) id)) =
      (((mapGet (adapterJoin s.adapterRooms req.roomId c) req.roomId).getD []).filter
        (fun id => id != c)).map (fun id => (id, displayName s.sockets id)) := by
    apply List.map_congr_left
    intro id hid
    have hidc : id ≠ c := by
      simp only [List.mem_filter, bne_iff_ne, ne_eq] at hid
      exact hid.2
    simp only [displayName, mapGet_setSocketData_ne _ _ _ _ hidc]
  have hout : (joinRoom s c req rnd).2 =
      (Relay.recipients ⟨rooms1, adapterJoin s.adapterRooms req.roomId c,
          setSocketData s.sockets c { roomId := .str req.roomId, name := req.name }⟩
        req.roomId (some c)).map (fun id => (id, Msg.userJoined c req.name)) ++
      [(c, Msg.roomUsers
        ((((mapGet (adapterJoin s.adapterRooms req.roomId c) req.roomId).getD []).filter
          (fun id => id != c)).map (fun id => (id, displayName
            (setSocketData s.sockets c { roomId := .str req.roomId, name := req.name }) id)))
        info)] := by
    rw [he]
  rw [hrec, hdisp] at hout
  refine ⟨⟨info, ?_⟩, ?_, ?_, hpeers, ?_, ?_⟩
  · rw [hp]; exact hout
  · exact List.Nodup.filter _ hnd
  · intro h
    exact ((hpeers c).mp h).2 rfl
  · intro id
    rw [hpeers]
    constructor
    · rintro ⟨h1, h2⟩
      rcases hsub id h1 with h | h
      · exact ⟨h, h2⟩
      · exact absurd h h2
    · rintro ⟨h1, h2⟩
      exact ⟨hsup id h1, h2⟩
  · intro id hid
    obtain ⟨h1, h2⟩ := (hpeers id).mp hid
    have hin : id ∈ s.members req.roomId := by
      rcases hsub id h1 with h | h
      · exact h
      · exact absurd h h2
    obtain ⟨d, hd⟩ := mapGet_of_mapHas s.sockets id (hms.2 id hin)
    refine ⟨d, hd, ?_, ?_⟩
    · rw [he]
      show mapGet (setSocketData s.sockets c _) id = some d
      rw [mapGet_setSocketData_ne _ _ _ _ h2, hd]
    · simp only [displayName, hd, JsVal.or]

/-- C10, at a concrete state: `b` joins the room `r` that `a` is in. -/
theorem join_mutual_discovery_witness :
    ∃ info : RoomInfo,
      (joinRoom oneInRoom "b" ⟨"r", .str "Bob", .undefined, .undefined⟩ []).2 =
        ((joinRoom oneInRoom "b" ⟨"r", .str "Bob", .undefined, .undefined⟩ []).1.peers
          "r" "b").map (fun id => (id, Msg.userJoined "b" (.str "Bob"))) ++
        [("b", Msg.roomUsers
          (((joinRoom oneInRoom "b" ⟨"r", .str "Bob", .undefined, .undefined⟩ []).1.peers
            "r" "b").map (fun id => (id, displayName oneInRoom.sockets id))) info)] :=
  (join_mutual_discovery oneInRoom "b" ⟨"r", .str "Bob", .undefined, .undefined⟩ []
    (by unfold Relay.WF; decide) (by decide) (by decide)).1

/-! ## Token disclosure -/

/-- C11, as stated, fails: `b` joins the private room `r` that `a` created, with the token;
`b` is not the creator, and the `room-users` reply to `b` carries the token, which the
client of `b` stores. -/
theorem token_to_joiner_counterexample :
    mapHas privateRoom.rooms "r" = true ∧
    (joinRoom privateRoom "b"
        ⟨"r", .str "Bob", .undefined, .str "000102030405060708090a0b0c0d0e0f"⟩ []).2 =
      [("a", Msg.userJoined "b" (.str "Bob")),
        ("b", Msg.roomUsers [("a", .str "Ann")]
          ⟨true, some "000102030405060708090a0b0c0d0e0f"⟩)] ∧
    storeInviteToken "" (some ⟨true, some "000102030405060708090a0b0c0d0e0f"⟩) =
      "000102030405060708090a0b0c0d0e0f" := by
  decide

/-- C11, amended: an admitted join-room request ends with exactly one `room-users` reply, to
the requester, whose `roomInfo` is the registry entry of the room, token included, whether
the requester created the room or not. The creator of a private room is sent the token just
generated; a later joiner of a private room is sent the token it supplied. -/
theorem room_users_carries_entry (s : Relay) (c : String) (req : JoinReq) (rnd : List Nat)
    (hadm : isDenied (joinRoom s c req rnd) = false) :
    ∃ (others : List (String × JsVal)) (info : RoomInfo),
      (joinRoom s c req rnd).2 =
        ((joinRoom s c req rnd).1.recipients req.roomId (some c)).map
          (fun id => (id, Msg.userJoined c req.name)) ++ [(c, Msg.roomUsers others info)] ∧
      mapGet (joinRoom s c req rnd).1.rooms req.roomId = some info ∧
      (mapHas s.rooms req.roomId = false →
        info.token = if req.isPrivate.truthy then some (toHex rnd) else none) ∧
      (mapHas s.rooms req.roomId = true → info.isPrivate = true →
        mapGet s.rooms req.roomId = some info ∧ req.token = info.tokenVal) := by
  cases hh : mapHas s.rooms req.roomId with
  | false =>
    have he := joinRoom_fresh s c req rnd hh
    refine ⟨(((joinRoom s c req rnd).1.members req.roomId).filter (fun id => id != c)).map
        (fun id => (id, displayName (joinRoom s c req rnd).1.sockets id)),
      ⟨req.isPrivate.truthy, if req.isPrivate.truthy then some (toHex rnd) else none⟩,
      ?_, ?_, fun _ => rfl, fun h => absurd h (by decide)⟩
    · rw [he]
    · rw [he]; exact mapGet_mapSet_self _ _ _
  | true =>
    obtain ⟨info, hinfo⟩ := mapGet_of_mapHas s.rooms req.roomId hh
    have hd := joinRoom_existing_denied s c req rnd info hinfo
    rw [hadm] at hd
    have he := joinRoom_existing s c req rnd info hinfo
    rw [if_neg (by rw [← hd]; decide)] at he
    refine ⟨(((joinRoom s c req rnd).1.members req.roomId).filter (fun id => id != c)).map
        (fun id => (id, displayName (joinRoom s c req rnd).1.sockets id)),
      info, ?_, ?_, fun h => absurd h (by decide), fun _ hpriv => ⟨hinfo, ?_⟩⟩
    · rw [he]
    · rw [he]; exact hinfo
    · rw [hpriv, Bool.true_and] at hd
      have hbad := (badToken_iff req.token info).not.mp (by rw [← hd]; decide)
      by_contra hne
      exact hbad (Or.inr hne)

/-- C11, amended, at a concrete state: `b` joins the private room `r` with its token. -/
theorem room_users_carries_entry_witness :
    ∃ (others : List (String × JsVal)) (info : RoomInfo),
      (joinRoom privateRoom "b"
        ⟨"r", .str "Bob", .undefined, .str "000102030405060708090a0b0c0d0e0f"⟩ []).2 =
        ((joinRoom privateRoom "b"
          ⟨"r", .str "Bob", .undefined, .str "000102030405060708090a0b0c0d0e0f"⟩
          []).1.recipients "r" (some "b")).map
          (fun id => (id, Msg.userJoined "b" (.str "Bob"))) ++
        [("b", Msg.roomUsers others info)] ∧
      mapGet (joinRoom privateRoom "b"
        ⟨"r", .str "Bob", .undefined, .str "000102030405060708090a0b0c0d0e0f"⟩
        []).1.rooms "r" = some info :=
  let ⟨others, info, h1, h2, _, _⟩ := room_users_carries_entry privateRoom "b"
    ⟨"r", .str "Bob", .undefined, .str "000102030405060708090a0b0c0d0e0f"⟩ [] (by decide)
  ⟨others, info, h1, h2⟩

/-! ## Leaving a room -/

/-- C12: when `c` is the only member of room `r`, its leave-room for `r` removes the registry
entry of `r`, so that the next join-room for `r`, by any socket and with any token, creates
the entry anew from that request (a new token when private) and is admitted; when a member
other than `c` remains in `r`, the leave-room leaves the registry as it was. -/
theorem leave_deletes_emptied_room (s : Relay) (c r : String) (name : JsVal) :
    (s.members r = [c] →
      mapHas (leaveRoom s c r name).1.rooms r = false ∧
      ∀ (c2 : String) (req : JoinReq) (rnd : List Nat), req.roomId = r →
        mapGet (joinRoom (leaveRoom s c r name).1 c2 req rnd).1.rooms r =
          some { isPrivate := req.isPrivate.truthy
                 token := if req.isPrivate.truthy then some (toHex rnd) else none } ∧
        isDenied (joinRoom (leaveRoom s c r name).1 c2 req rnd) = false ∧
        c2 ∈ (joinRoom (leaveRoom s c r name).1 c2 req rnd).1.members r) ∧
    ((∃ id, id ∈ s.members r ∧ id ≠ c) →
      (leaveRoom s c r name).1.rooms = s.rooms ∧
      mapGet (leaveRoom s c r name).1.rooms r = mapGet s.rooms r) := by
  have hrooms := leaveRoom_rooms s c r name
  constructor
  · intro hm
    have hp : s.peers r c = [] := by
      unfold Relay.peers
      rw [hm]
      simp
    rw [hp, if_pos rfl] at hrooms
    have hno : mapHas (leaveRoom s c r name).1.rooms r = false := by
      rw [hrooms]; exact mapHas_mapDelete_self s.rooms r
    refine ⟨hno, ?_⟩
    intro c2 req rnd hreq
    subst hreq
    rw [joinRoom_fresh (leaveRoom s c req.roomId name).1 c2 req rnd hno]
    exact ⟨mapGet_mapSet_self _ _ _, isDenied_admitted _ _ _ _ _ _,
      mem_members_adapterJoin _ _ _⟩
  · rintro ⟨id, hid, hne⟩
    have hp : s.peers r c ≠ [] := by
      intro h
      have hmem : id ∈ s.peers r c := by
        unfold Relay.peers
        rw [List.mem_filter]
        exact ⟨hid, by simpa using hne⟩
      rw [h] at hmem
      exact absurd hmem (List.not_mem_nil id)
    rw [if_neg hp] at hrooms
    exact ⟨hrooms, by rw [hrooms]⟩

/-- C12, at a concrete state: `a`, alone in the public room `r`, leaves; the next join, by
`b`, makes `r` a private room with a token of its own. -/
theorem leave_deletes_emptied_room_witness :
    mapHas (leaveRoom oneInRoom "a" "r" (.str "Ann")).1.rooms "r" = false ∧
    mapGet (joinRoom (leaveRoom oneInRoom "a" "r" (.str "Ann")).1 "b"
        ⟨"r", .str "Bob", .bool true, .undefined⟩
        [0, 1, 2, 3, 4, 5, 6, 7, 8, 9, 10, 11, 12, 13, 14, 15]).1.rooms "r" =
      some ⟨true, some "000102030405060708090a0b0c0d0e0f"⟩ :=
  ⟨((leave_deletes_emptied_room oneInRoom "a" "r" (.str "Ann")).1 (by decide)).1,
    (((leave_deletes_emptied_room oneInRoom "a" "r" (.str "Ann")).1 (by decide)).2 "b"
      ⟨"r", .str "Bob", .bool true, .undefined⟩
      [0, 1, 2, 3, 4, 5, 6, 7, 8, 9, 10, 11, 12, 13, 14, 15] rfl).1.trans (by decide)⟩

/-- C13, evaluated where it fails: `a` connects, joins `r1`, joins `r2` and disconnects; the
disconnect handler cleans up `r2`, the recorded room, only, and the registry keeps the entry
of `r1`, a room without members. The same happens to a room named by the empty string, which
the handler's test `if (roomId)` skips. -/
theorem registry_entry_without_member :
    (mapHas (run [.connect "a",
        .joinRoom "a" ⟨"r1", .str "Ann", .undefined, .undefined⟩ [],
        .joinRoom "a" ⟨"r2", .str "Ann", .undefined, .undefined⟩ [],
        .disconnect "a"]).rooms "r1" = true ∧
      (run [.connect "a",
        .joinRoom "a" ⟨"r1", .str "Ann", .undefined, .undefined⟩ [],
        .joinRoom "a" ⟨"r2", .str "Ann", .undefined, .undefined⟩ [],
        .disconnect "a"]).members "r1" = []) ∧
    (mapHas (run [.connect "a", .joinRoom "a" ⟨"", .str "Ann", .undefined, .undefined⟩ [],
        .disconnect "a"]).rooms "" = true ∧
      (run [.connect "a", .joinRoom "a" ⟨"", .str "Ann", .undefined, .undefined⟩ [],
        .disconnect "a"]).members "" = []) := by
  decide

/-- C14: when `c`, connected and a member of room `r` in a well-formed relay state, sends
leave-room for `r` and then disconnects, the leave-room delivers one `user-left` for `c` to
each remaining member of `r`, each once, the disconnect delivers nothing, and the registry
entry of `r` is deleted by the leave-room when `r` became empty and by nothing else. -/
theorem leave_then_disconnect (s : Relay) (c r : String) (name : JsVal) (hwf : s.WF)
    (hc : mapHas s.sockets c = true) (_hm : c ∈ s.members r) :
    (leaveRoom s c r name).2 =
      (s.peers r c).map (fun id =>
        (id, Msg.userLeft c ((name.or (socketName s.sockets c)).or (.str "User")))) ∧
    (s.peers r c).Nodup ∧
    (leaveRoom s c r name).1.members r = s.peers r c ∧
    (disconnect (leaveRoom s c r name).1 c).2 = [] ∧
    (leaveRoom s c r name).1.rooms =
      (if s.peers r c = [] then mapDelete s.rooms r else s.rooms) ∧
    (disconnect (leaveRoom s c r name).1 c).1.rooms = (leaveRoom s c r name).1.rooms := by
  obtain ⟨d, hd⟩ := mapGet_of_mapHas s.sockets c hc
  have hdata : mapGet (leaveRoom s c r name).1.sockets c =
      some { d with roomId := JsVal.null } := by
    show mapGet (clearSocketRoom s.sockets c) c = _
    rw [mapGet_clearSocketRoom_self, hd]
    rfl
  have hdis : disconnect (leaveRoom s c r name).1 c =
      (⟨(leaveRoom s c r name).1.rooms,
        adapterLeaveAll (leaveRoom s c r name).1.adapterRooms c,
        mapDelete (leaveRoom s c r name).1.sockets c⟩, []) := by
    simp only [disconnect, hdata, Option.getD_some]
  refine ⟨?_, ?_, leaveRoom_members_self s c r name, ?_, leaveRoom_rooms s c r name, ?_⟩
  · show (s.recipients r (some c)).map _ = _
    rw [recipients_eq_peers s hwf r c]
  · exact List.Nodup.filter _ (WF_members s hwf r).1
  · rw [hdis]
  · rw [hdis]

/-- C14, at a concrete state: `a` leaves the room `r` it shares with `b`, then disconnects. -/
theorem leave_then_disconnect_witness :
    (leaveRoom twoInRoom "a" "r" (.str "Ann")).2 =
      (twoInRoom.peers "r" "a").map (fun id =>
        (id, Msg.userLeft "a"
          (((JsVal.str "Ann").or (socketName twoInRoom.sockets "a")).or (.str "User")))) ∧
    (disconnect (leaveRoom twoInRoom "a" "r" (.str "Ann")).1 "a").2 = [] :=
  ⟨(leave_then_disconnect twoInRoom "a" "r" (.str "Ann") (by unfold Relay.WF; decide)
      (by decide) (by decide)).1,
    (leave_then_disconnect twoInRoom "a" "r" (.str "Ann") (by unfold Relay.WF; decide)
      (by decide) (by decide)).2.2.2.1⟩

/-- C15, as stated, fails: `a` is in the rooms `r1` and `r2`, with `r2` and `Ann` recorded;
its disconnect takes it out of `r1` as well, and its leave-room for `r2` does not. -/
theorem disconnect_leave_counterexample :
    mapGet inTwoRooms.sockets "a" = some ⟨.str "r2", .str "Ann"⟩ ∧
    (disconnect inTwoRooms "a").1.members "r1" = [] ∧
    (leaveRoom inTwoRooms "a" "r2" (.str "Ann")).1.members "r1" = ["a"] := by
  decide

/-- C15, amended: for a connected socket `c` whose recorded roomId is the non-empty string
`r` and whose recorded name is `n`, a disconnect delivers the same `user-left` notifications,
leaves the same members in `r` and the same room registry as a leave-room `{roomId: r,
name: n}`. The two differ on the other rooms: the disconnect takes `c` out of every room,
the leave-room leaves every room but `r` as it was. -/
theorem disconnect_as_leave (s : Relay) (c r : String) (n : JsVal) (hk : s.KeysNodup)
    (hd : mapGet s.sockets c = some ⟨.str r, n⟩) (hr : r ≠ "") :
    (disconnect s c).2 = (leaveRoom s c r n).2 ∧
    (disconnect s c).1.rooms = (leaveRoom s c r n).1.rooms ∧
    (disconnect s c).1.members r = (leaveRoom s c r n).1.members r ∧
    (∀ room, (disconnect s c).1.members room = (s.members room).filter (fun m => m != c)) ∧
    (∀ room, room ≠ r → (leaveRoom s c r n).1.members room = s.members room) := by
  have hb : (r != "") = true := by simpa using hr
  have hdis : disconnect s c =
      (⟨cleanupRoom s.rooms (adapterLeaveAll s.adapterRooms c) r,
          adapterLeaveAll s.adapterRooms c, mapDelete s.sockets c⟩,
        (Relay.recipients ⟨s.rooms, adapterLeaveAll s.adapterRooms c, mapDelete s.sockets c⟩
          r (some c)).map (fun id => (id, Msg.userLeft c (n.or (.str "User"))))) := by
    simp only [disconnect, hd, Option.getD_some, hb, if_true]
  have hmem : ∀ room, (disconnect s c).1.members room =
      (s.members room).filter (fun m => m != c) := by
    intro room
    rw [hdis]
    exact members_adapterLeaveAll s.adapterRooms c room hk
  have hname : (n.or (socketName s.sockets c)).or (.str "User") = n.or (.str "User") := by
    simp only [socketName, hd]
    exact or_or_user n
  refine ⟨?_, ?_, ?_, hmem, fun room hne => leaveRoom_members_ne s c r n room hne⟩
  · -- the notifications
    rw [hdis]
    show List.map _ _ = (s.recipients r (some c)).map _
    rw [hname]
    congr 1
    have hm := members_adapterLeaveAll s.adapterRooms c r hk
    unfold Relay.recipients Relay.members
    simp only
    rw [hm, List.filter_filter]
    apply List.filter_congr
    intro id _
    by_cases hidc : id = c
    · simp [hidc]
    · have h1 : ¬ c = id := fun h => hidc h.symm
      have h2 : (id != c) = true := by simpa using hidc
      simp only [mapHas_mapDelete_ne s.sockets c id hidc, h2, Bool.and_true]
  · -- the registry
    rw [leaveRoom_rooms, hdis]
    show cleanupRoom s.rooms (adapterLeaveAll s.adapterRooms c) r = _
    rw [cleanupRoom_eq, members_adapterLeaveAll s.adapterRooms c r hk]
    rfl
  · rw [hmem, leaveRoom_members_self]
    rfl

/-- C15, amended, at a concrete state: `a`, in room `r` with `b`, disconnects. -/
theorem disconnect_as_leave_witness :
    (disconnect twoInRoom "a").2 = (leaveRoom twoInRoom "a" "r" (.str "Ann")).2 ∧
    (disconnect twoInRoom "a").1.rooms = (leaveRoom twoInRoom "a" "r" (.str "Ann")).1.rooms :=
  ⟨(disconnect_as_leave twoInRoom "a" "r" (.str "Ann") (by unfold Relay.KeysNodup; decide)
      (by decide) (by decide)).1,
    (disconnect_as_leave twoInRoom "a" "r" (.str "Ann") (by unfold Relay.KeysNodup; decide)
      (by decide) (by decide)).2.1⟩

/-- C19, as stated, fails: `x` is connected and in no room; its leave-room for `r` delivers a
`user-left` for `x` to `a` and to `b`, the members of `r`. -/
theorem leave_by_non_member_counterexample :
    "x" ∉ twoInRoomAndOutsider.members "r" ∧
    (leaveRoom twoInRoomAndOutsider "x" "r" .undefined).2 =
      [("a", Msg.userLeft "x" (.str "User")), ("b", Msg.userLeft "x" (.str "User"))] := by
  decide

/-- C19, amended: a leave-room request of `c` naming a room `r` it is not a member of
delivers a `user-left` for `c` to every connected member of `r`; the members of `r` stay as
they were, and so does the registry when `r` has a member (the entry of a room without
members is deleted). -/
theorem leave_by_non_member (s : Relay) (c r : String) (name : JsVal)
    (hnot : c ∉ s.members r) :
    (leaveRoom s c r name).2 =
      ((s.members r).filter (fun id => mapHas s.sockets id)).map (fun id =>
        (id, Msg.userLeft c ((name.or (socketName s.sockets c)).or (.str "User")))) ∧
    (leaveRoom s c r name).1.members r = s.members r ∧
    (s.members r ≠ [] → (leaveRoom s c r name).1.rooms = s.rooms) ∧
    (s.members r = [] → (leaveRoom s c r name).1.rooms = mapDelete s.rooms r) := by
  have hp := peers_eq_self_of_not_mem s r c hnot
  have hrooms := leaveRoom_rooms s c r name
  rw [hp] at hrooms
  refine ⟨?_, ?_, ?_, ?_⟩
  · show (s.recipients r (some c)).map _ = _
    congr 1
    unfold Relay.recipients
    apply List.filter_congr
    intro id hid
    have hidc : ¬ c = id := fun h => hnot (h ▸ hid)
    simp [hidc]
  · rw [leaveRoom_members_self, hp]
  · intro h
    rw [hrooms, if_neg h]
  · intro h
    rw [hrooms, if_pos h]

/-- C19, amended, at a concrete state: the leave-room of the outsider `x` for room `r`. -/
theorem leave_by_non_member_witness :
    (leaveRoom twoInRoomAndOutsider "x" "r" .undefined).1.members "r" =
      twoInRoomAndOutsider.members "r" :=
  (leave_by_non_member twoInRoomAndOutsider "x" "r" .undefined (by decide)).2.1

/-! ## Role derivation -/

/-- C5, as stated, fails: the client with id `b` facing remote `a` has the greater id and is
polite, and the client with id `a` facing remote `b` has the lesser id and is impolite. -/
theorem isPolite_greater_counterexample :
    strGt "b" "a" = true ∧ isPolite (some "b") "a" = true ∧ isPolite (some "a") "b" = false := by
  decide

/-- C5, amended: on a client whose own id is non-empty, `isPolite(remoteId)` is true when the
own id is greater than the remote id and false when it is less: the greater id is the polite
side, the lesser id the impolite side. -/
theorem isPolite_greater_is_polite (localId remoteId : String) (hl : localId ≠ "") :
    (strGt localId remoteId = true → isPolite (some localId) remoteId = true) ∧
    (strGt remoteId localId = true → isPolite (some localId) remoteId = false) := by
  rw [isPolite_some localId remoteId hl]
  exact ⟨fun h => h, fun h => strGt_asymm remoteId localId h⟩

/-- C5, amended, at the ids `b` (local) and `a` (remote). -/
theorem isPolite_greater_is_polite_witness :
    strGt "b" "a" = true ∧ isPolite (some "b") "a" = true :=
  ⟨by decide, (isPolite_greater_is_polite "b" "a" (by decide)).1 (by decide)⟩

/-- C6: for the ids of two participants, which the relay assigns and which are therefore
distinct and non-empty, the flag each side computes for the other is the negation of the flag
the other computes for it, so exactly one side is polite, and the two sides agree on it,
whichever evaluates first (`isPolite` is a function of the two ids). -/
theorem isPolite_negation (a b : String) (hab : a ≠ b) (ha : a ≠ "") (hb : b ≠ "") :
    isPolite (some a) b = !isPolite (some b) a ∧
    ((isPolite (some a) b = true ∧ isPolite (some b) a = false) ∨
      (isPolite (some a) b = false ∧ isPolite (some b) a = true)) := by
  rw [isPolite_some a b ha, isPolite_some b a hb]
  have h := strGt_flip a b hab
  refine ⟨h, ?_⟩
  cases hba : strGt b a <;> simp [h, hba]

/-- C6, at the ids `a` and `b`. -/
theorem isPolite_negation_witness :
    isPolite (some "a") "b" = !isPolite (some "b") "a" :=
  (isPolite_negation "a" "b" (by decide) (by decide) (by decide)).1

/-! ## The description handler -/

/-- C7: for a description `d` received from remote `r` whose link is `pc`, the handler ignores
it (no action, client state as it was, no error) exactly when `d` is an offer, `makingOffer[r]`
is true or the signaling state of `pc` is not stable, and `isPolite(r)` is false. Otherwise its
first action applies `d` as remote description; when the transport accepts it, a received
answer ends the handler there, and a received offer is followed by producing the local
description and sending it to `r`. A description is sent only to `r` and only for an offer. -/
theorem description_decision_rule {PC : Type} (T : Transport PC) (st : Client PC) (r : String)
    (pc : PC) (d : Description) (hlink : mapGet st.pcs r = some pc) :
    (((onSignal T st r (.description (some d))).acts = [] ∧
        (onSignal T st r (.description (some d))).state = st ∧
        (onSignal T st r (.description (some d))).threw = false) ↔
      (d.type = .offer ∧
        (mapGet st.makingOffer r = some true ∨ T.signalingState pc ≠ .stable) ∧
        isPolite st.socketId r = false)) ∧
    (¬ (d.type = .offer ∧
        (mapGet st.makingOffer r = some true ∨ T.signalingState pc ≠ .stable) ∧
        isPolite st.socketId r = false) →
      (onSignal T st r (.description (some d))).acts.head? = some (.setRemoteDescription r d) ∧
      (∀ pc1, T.setRemoteDescription pc d = some pc1 → d.type ≠ .offer →
        (onSignal T st r (.description (some d))).acts = [.setRemoteDescription r d] ∧
        (onSignal T st r (.description (some d))).state = { st with pcs := mapSet st.pcs r pc1 } ∧
        (onSignal T st r (.description (some d))).threw = false) ∧
      (∀ pc1 pc3, T.setRemoteDescription pc d = some pc1 → d.type = .offer →
        T.setLocalDescription (attachLocalTracksToPC T st.localStream pc1) = some pc3 →
        (onSignal T st r (.description (some d))).acts =
          [.setRemoteDescription r d, .setLocalDescription r,
            .emit r (.description (T.localDescription pc3))] ∧
        (onSignal T st r (.description (some d))).state = { st with pcs := mapSet st.pcs r pc3 } ∧
        (onSignal T st r (.description (some d))).threw = false)) ∧
    (∀ toId data, Act.emit toId data ∈ (onSignal T st r (.description (some d))).acts →
      d.type = .offer ∧ toId = r) := by
  have hiff := ignoreThisOffer_iff T st r pc d
  cases hc : (!isPolite st.socketId r && (d.type == .offer &&
      ((mapGet st.makingOffer r).getD false || T.signalingState pc != .stable)))
  · -- the description is applied
    have hnot : ¬ (d.type = .offer ∧
        (mapGet st.makingOffer r = some true ∨ T.signalingState pc ≠ .stable) ∧
        isPolite st.socketId r = false) := by
      rw [← hiff, hc]; decide
    have happ := onSignal_description_applied T st r pc d hlink hc
    refine ⟨⟨?_, fun h => absurd h hnot⟩, fun _ => ⟨?_, ?_, ?_⟩, ?_⟩
    · rintro ⟨hacts, -, -⟩
      exfalso
      rw [happ] at hacts
      cases hr : T.setRemoteDescription pc d with
      | none => simp [hr] at hacts
      | some pc1 =>
        simp only [hr] at hacts
        split at hacts
        · cases hl : T.setLocalDescription (attachLocalTracksToPC T st.localStream pc1) <;>
            simp [hl] at hacts
        · simp at hacts
    · rw [happ]
      cases hr : T.setRemoteDescription pc d with
      | none => rfl
      | some pc1 =>
        simp only
        split
        · cases hl : T.setLocalDescription (attachLocalTracksToPC T st.localStream pc1) <;> rfl
        · rfl
    · intro pc1 hr hty
      have hb : (d.type == SdpType.offer) = false := by simpa using hty
      rw [happ, hr]
      simp only [hb, Bool.false_eq_true, if_false]
      refine ⟨?_, ?_, ?_⟩ <;> first | rfl | trivial
    · intro pc1 pc3 hr hty hl
      have hb : (d.type == SdpType.offer) = true := by simpa using hty
      rw [happ, hr]
      simp only [hb, if_true, hl]
      refine ⟨?_, ?_, ?_⟩ <;> first | rfl | trivial
    · intro toId data hmem
      rw [happ] at hmem
      cases hr : T.setRemoteDescription pc d with
      | none => simp [hr] at hmem
      | some pc1 =>
        simp only [hr] at hmem
        by_cases hty : d.type = .offer
        · have hb : (d.type == SdpType.offer) = true := by simpa using hty
          simp only [hb, if_true] at hmem
          cases hl : T.setLocalDescription (attachLocalTracksToPC T st.localStream pc1) with
          | none => simp [hl] at hmem
          | some pc3 =>
            simp [hl] at hmem
            exact ⟨hty, hmem.1⟩
        · have hb : (d.type == SdpType.offer) = false := by simpa using hty
          simp [hb] at hmem
  · -- the description is ignored
    have hyes := hiff.mp hc
    have hign := onSignal_description_ignored T st r pc d hlink hc
    refine ⟨⟨fun _ => hyes, fun _ => ?_⟩, fun h => absurd hyes h, ?_⟩
    · rw [hign]; exact ⟨rfl, rfl, rfl⟩
    · intro toId data hmem
      rw [hign] at hmem
      simp at hmem

/-- C7, at a concrete state: the client `a`, impolite towards `b` and awaiting the answer to
its own offer, ignores the offer of `b`. -/
theorem description_decision_rule_witness :
    (onSignal (jsep "oa" "aa") (offeringClient "a" "b" "oa") "b"
      (.description (some ⟨.offer, "ob"⟩))).acts = [] :=
  ((description_decision_rule (jsep "oa" "aa") (offeringClient "a" "b" "oa") "b"
    ⟨.haveLocalOffer, some ⟨.offer, "oa"⟩, none, none, none, []⟩ ⟨.offer, "ob"⟩
    (by decide)).1.mpr ⟨rfl, Or.inr (by decide), by decide⟩).1

/-! ## Glare -/

/-- C8, as stated, fails: with ids `a` and `b` the client `b` is the polite side and `a` the
impolite side; in glare the offer of the polite side `b` is the one discarded (`a` ignores it
and `b` rolls it back), and the offer of the impolite side `a` is the one applied and
answered. -/
theorem glare_counterexample :
    isPolite (some "a") "b" = false ∧ isPolite (some "b") "a" = true ∧
    onSignal (jsep "oa" "aa") (offeringClient "a" "b" "oa") "b"
        (.description (some ⟨.offer, "ob"⟩)) =
      ⟨offeringClient "a" "b" "oa", [], false⟩ ∧
    (onSignal (jsep "ob" "ab") (offeringClient "b" "a" "ob") "a"
        (.description (some ⟨.offer, "oa"⟩))).acts =
      [.setRemoteDescription "a" ⟨.offer, "oa"⟩, .setLocalDescription "a",
        .emit "a" (.description (some ⟨.answer, "ab"⟩))] ∧
    (mapGet (onSignal (jsep "ob" "ab") (offeringClient "b" "a" "ob") "a"
        (.description (some ⟨.offer, "oa"⟩))).state.pcs "a").map
      (fun pc => (pc.pendingLocal, pc.currentRemote)) =
      some (none, some ⟨.offer, "oa"⟩) := by
  decide

/-- C8, amended: for two clients with distinct non-empty ids that have each issued an offer to
the other and then receive the other's offer, the client with the greater id is the polite
side and the other the impolite side; the offer of the polite side is discarded (ignored by the
impolite side, rolled back by the polite side), the offer of the impolite side is applied and
answered by the polite side, so exactly one offer is answered; and once that answer is
delivered both links are `stable` and hold the same offer / answer pair. -/
theorem glare_resolution (a b oa aa ob ab : String) (stA stB : Client JsepPC)
    (offA offB : Description) (hab : a ≠ b) (ha : a ≠ "") (hb : b ≠ "")
    (hidA : stA.socketId = some a) (hidB : stB.socketId = some b)
    (hA : HasIssuedOffer stA b offA) (hB : HasIssuedOffer stB a offB) :
    (strGt b a = true ∧
      GlareResolved (jsep oa aa) (jsep ob ab) stA stB a b offA offB ⟨.answer, ab⟩) ∨
    (strGt a b = true ∧
      GlareResolved (jsep ob ab) (jsep oa aa) stB stA b a offB offA ⟨.answer, aa⟩) := by
  have hpa : isPolite stA.socketId b = strGt a b := by rw [hidA]; exact isPolite_some a b ha
  have hpb : isPolite stB.socketId a = strGt b a := by rw [hidB]; exact isPolite_some b a hb
  rcases strGt_total a b hab with h | h
  · right
    have h' := strGt_asymm a b h
    exact ⟨h, glare_case ob ab oa aa stB stA b a offB offA (by rw [hpb, h'])
      (by rw [hpa, h]) hB hA⟩
  · left
    have h' := strGt_asymm b a h
    exact ⟨h, glare_case oa aa ob ab stA stB a b offA offB (by rw [hpa, h'])
      (by rw [hpb, h]) hA hB⟩

/-- C8, amended, at the ids `a` and `b`: one of the two resolutions holds. -/
theorem glare_resolution_witness :
    (strGt "b" "a" = true ∧
      GlareResolved (jsep "oa" "aa") (jsep "ob" "ab") (offeringClient "a" "b" "oa")
        (offeringClient "b" "a" "ob") "a" "b" ⟨.offer, "oa"⟩ ⟨.offer, "ob"⟩ ⟨.answer, "ab"⟩) ∨
    (strGt "a" "b" = true ∧
      GlareResolved (jsep "ob" "ab") (jsep "oa" "aa") (offeringClient "b" "a" "ob")
        (offeringClient "a" "b" "oa") "b" "a" ⟨.offer, "ob"⟩ ⟨.offer, "oa"⟩ ⟨.answer, "aa"⟩) :=
  glare_resolution "a" "b" "oa" "aa" "ob" "ab" (offeringClient "a" "b" "oa")
    (offeringClient "b" "a" "ob") ⟨.offer, "oa"⟩ ⟨.offer, "ob"⟩ (by decide) (by decide)
    (by decide) rfl rfl (by simp [HasIssuedOffer, offeringClient, mapGet])
    (by simp [HasIssuedOffer, offeringClient, mapGet])

/-! ## Signals after a link was closed -/

/-- C16, as stated, fails: after `closePeer("a")` the client `b` has no connection for `a`;
an offer then received from `a` is applied to a newly created connection and answered, and
the client has a connection for `a` again. -/
theorem signal_after_close_counterexample :
    mapHas (closePeer (offeringClient "b" "a" "ob") "a").pcs "a" = false ∧
    (onSignal (jsep "ob" "ab") (closePeer (offeringClient "b" "a" "ob") "a") "a"
        (.description (some ⟨.offer, "oa"⟩))).acts =
      [.setRemoteDescription "a" ⟨.offer, "oa"⟩, .setLocalDescription "a",
        .emit "a" (.description (some ⟨.answer, "ab"⟩))] ∧
    mapHas (onSignal (jsep "ob" "ab") (closePeer (offeringClient "b" "a" "ob") "a") "a"
        (.description (some ⟨.offer, "oa"⟩))).state.pcs "a" = true := by
  decide

/-- C16, amended: for a remote id `r` that is not a name every JavaScript object inherits (the
relay assigns none), `closePeer(r)` leaves the client without a connection, a `makingOffer` or
an `ignoreOffer` entry for `r`; a description or a candidate received from `r` afterwards is
handled as on any link, on a connection that `ensurePeer` creates anew (local tracks attached)
and stores for `r`, so that the client has a connection for `r` again. The candidate is added
to the new connection. The description, when the new connection is in the stable signaling
state, is applied to it as remote description first; when the transport accepts it, an answer
ends the handler there, and an offer is followed by producing the local description on the
connection and, when the transport produces it, by sending it to `r`. -/
theorem signal_after_closePeer {PC : Type} (T : Transport PC) (st : Client PC) (r : String)
    (_hr : r ∉ inheritedKeys) :
    (mapGet (closePeer st r).pcs r = none ∧
      mapGet (closePeer st r).makingOffer r = none ∧
      mapGet (closePeer st r).ignoreOffer r = none) ∧
    ensurePeer T (closePeer st r) r =
      ({ closePeer st r with
          pcs := mapSet (closePeer st r).pcs r
            (attachLocalTracksToPC T st.localStream T.create) },
        attachLocalTracksToPC T st.localStream T.create) ∧
    (∀ d : Description,
      onSignal T (closePeer st r) r (.description (some d)) =
        onSignal T (ensurePeer T (closePeer st r) r).1 r (.description (some d)) ∧
      mapHas (onSignal T (closePeer st r) r (.description (some d))).state.pcs r = true ∧
      (T.signalingState (attachLocalTracksToPC T st.localStream T.create) = .stable →
        (onSignal T (closePeer st r) r (.description (some d))).acts.head? =
          some (.setRemoteDescription r d) ∧
        ∀ pc1, T.setRemoteDescription (attachLocalTracksToPC T st.localStream T.create) d =
            some pc1 →
          (d.type ≠ .offer →
            (onSignal T (closePeer st r) r (.description (some d))).acts =
              [.setRemoteDescription r d] ∧
            (onSignal T (closePeer st r) r (.description (some d))).threw = false ∧
            mapGet (onSignal T (closePeer st r) r (.description (some d))).state.pcs r =
              some pc1) ∧
          (d.type = .offer → ∀ pc3,
            T.setLocalDescription (attachLocalTracksToPC T st.localStream pc1) = some pc3 →
            (onSignal T (closePeer st r) r (.description (some d))).acts =
              [.setRemoteDescription r d, .setLocalDescription r,
                .emit r (.description (T.localDescription pc3))] ∧
            (onSignal T (closePeer st r) r (.description (some d))).threw = false ∧
            mapGet (onSignal T (closePeer st r) r (.description (some d))).state.pcs r =
              some pc3))) ∧
    (∀ cand : Candidate,
      onSignal T (closePeer st r) r (.candidate cand) =
        onSignal T (ensurePeer T (closePeer st r) r).1 r (.candidate cand) ∧
      mapHas (onSignal T (closePeer st r) r (.candidate cand)).state.pcs r = true ∧
      (onSignal T (closePeer st r) r (.candidate cand)).acts = [.addIceCandidate r cand]) := by
  have hpcs : mapGet (closePeer st r).pcs r = none := mapGet_mapDelete_self st.pcs r
  have hmk : mapGet (closePeer st r).makingOffer r = none := mapGet_mapDelete_self _ r
  have hfresh := ensurePeer_fresh T (closePeer st r) r hpcs
  refine ⟨⟨hpcs, hmk, mapGet_mapDelete_self _ r⟩, hfresh, ?_, ?_⟩
  · intro d
    refine ⟨onSignal_description_ensured T _ r d, onSignal_description_has_link T _ r d, ?_⟩
    intro hstable
    rw [onSignal_description_ensured T _ r d]
    have hlink := ensurePeer_has T (closePeer st r) r
    have hpc : (ensurePeer T (closePeer st r) r).2 =
        attachLocalTracksToPC T st.localStream T.create := by rw [hfresh]; rfl
    have hls : (ensurePeer T (closePeer st r) r).1.localStream = st.localStream := by
      rw [hfresh]; rfl
    have hmk2 : mapGet (ensurePeer T (closePeer st r) r).1.makingOffer r = none := by
      rw [hfresh]; exact hmk
    rw [onSignal_description_applied T _ r _ d hlink (by simp [hmk2, hpc, hstable]), hpc, hls]
    constructor
    · cases hr : T.setRemoteDescription (attachLocalTracksToPC T st.localStream T.create) d with
      | none => rfl
      | some pc1 =>
        simp only
        split
        · split <;> rfl
        · rfl
    · intro pc1 hr
      rw [hr]
      constructor
      · intro hty
        have hb : (d.type == SdpType.offer) = false := by simpa using hty
        simp only [hb, Bool.false_eq_true, if_false]
        exact ⟨trivial, trivial, mapGet_mapSet_self _ _ _⟩
      · intro hty pc3 hl
        have hb : (d.type == SdpType.offer) = true := by simpa using hty
        simp only [hb, if_true, hl]
        exact ⟨trivial, trivial, mapGet_mapSet_self _ _ _⟩
  · intro cand
    exact ⟨onSignal_candidate_ensured T _ r cand,
      (onSignal_candidate_has_link T _ r cand).1, (onSignal_candidate_has_link T _ r cand).2⟩

/-- C16, amended, at a concrete state: after `closePeer("a")` on the client `b`, an offer of
`a` is applied to the new connection and answered. -/
theorem signal_after_closePeer_witness :
    (onSignal (jsep "ob" "ab") (closePeer (offeringClient "b" "a" "ob") "a") "a"
        (.description (some ⟨.offer, "oa"⟩))).acts =
      [.setRemoteDescription "a" ⟨.offer, "oa"⟩, .setLocalDescription "a",
        .emit "a" (.description ((jsep "ob" "ab").localDescription
          ⟨.stable, none, some ⟨.answer, "ab"⟩, none, some ⟨.offer, "oa"⟩, []⟩))] :=
  (((((signal_after_closePeer (jsep "ob" "ab") (offeringClient "b" "a" "ob") "a"
    (by decide)).2.2.1 ⟨.offer, "oa"⟩).2.2 (by decide)).2
    ⟨.haveRemoteOffer, none, none, some ⟨.offer, "oa"⟩, none, []⟩ (by decide)).2 rfl
    ⟨.stable, none, some ⟨.answer, "ab"⟩, none, some ⟨.offer, "oa"⟩, []⟩ (by decide)).1

/-! ## Media state -/

/-- C17: a client with flags `micOn`, `camOn` that handles a `media-state-request` from `r`
emits one signal, to `r`, with the payload `media-state` of these flags, and changes nothing;
the relay, when the room named `r` holds the connected socket `r` alone, forwards it to `r`
only, as sent and with the sender's id `l`; and the client `r`, handling it, records exactly
these flags for `l`, leaves its entries for all others as they were and emits nothing. -/
theorem media_state_round_trip {PC PC2 : Type} (T : Transport PC) (T2 : Transport PC2)
    (stL : Client PC) (stR : Client PC2) (s : Relay) (l r : String)
    (hroom : s.members r = [r]) (hconn : mapHas s.sockets r = true) :
    (onSignal T stL r .mediaStateRequest).acts =
      [.emit r (.mediaState (.bool stL.micOn) (.bool stL.camOn))] ∧
    (onSignal T stL r .mediaStateRequest).state = stL ∧
    (signal s l r (.mediaState (.bool stL.micOn) (.bool stL.camOn))).2 =
      [(r, Msg.signal l (.mediaState (.bool stL.micOn) (.bool stL.camOn)))] ∧
    mapGet (onSignal T2 stR l
        (.mediaState (.bool stL.micOn) (.bool stL.camOn))).state.mediaState l =
      some (stL.micOn, stL.camOn) ∧
    (∀ j, j ≠ l →
      mapGet (onSignal T2 stR l
          (.mediaState (.bool stL.micOn) (.bool stL.camOn))).state.mediaState j =
        mapGet stR.mediaState j) ∧
    (onSignal T2 stR l (.mediaState (.bool stL.micOn) (.bool stL.camOn))).acts = [] := by
  refine ⟨rfl, rfl, ?_, ?_, ?_, rfl⟩
  · simp [signal, Relay.recipients, hroom, hconn]
  · exact mapGet_mapSet_self _ _ _
  · intro j hj
    exact mapGet_mapSet_ne _ _ _ _ hj

/-- C17, at the flags `micOn = true`, `camOn = false`: `a` answers the request of `b`, the
relay forwards the answer, and `b` records `(true, false)` for `a`. -/
theorem media_state_round_trip_witness :
    mapGet (onSignal (jsep "ob" "ab") (micOnClient "b") "a"
        (.mediaState (.bool true) (.bool false))).state.mediaState "a" = some (true, false) :=
  (media_state_round_trip (jsep "oa" "aa") (jsep "ob" "ab") (micOnClient "a")
    (micOnClient "b") twoInRoom "a" "b" (by decide) (by decide)).2.2.2.1

/-! ## Renegotiation -/

/-- C18: for a remote `r` with a link, the `negotiationneeded` handler awaits the local
description in a client state that is the initial one with `makingOffer[r]` set to true (so
that, on an impolite client, an offer of `r` handled meanwhile is ignored), and ends in a
state in which `makingOffer[r]` is false, whether the transport produced the description or
rejected; it never ends with an error; it emits a `description` signal, to `r`, carrying the
local description, exactly when the transport produced it; it emits to nobody else, and it
leaves the `makingOffer` flags of the other remotes as they were. -/
theorem negotiation_trigger {PC : Type} (T : Transport PC) (st : Client PC) (r : String)
    (pc : PC) (hlink : mapGet st.pcs r = some pc) :
    mapGet (onnegotiationneeded T st r).awaiting.makingOffer r = some true ∧
    (onnegotiationneeded T st r).awaiting =
      { st with makingOffer := mapSet st.makingOffer r true } ∧
    (∀ d : Description, d.type = .offer → isPolite st.socketId r = false →
      onSignal T (onnegotiationneeded T st r).awaiting r (.description (some d)) =
        ⟨(onnegotiationneeded T st r).awaiting, [], false⟩) ∧
    mapGet (onnegotiationneeded T st r).result.state.makingOffer r = some false ∧
    (∀ j, j ≠ r → mapGet (onnegotiationneeded T st r).result.state.makingOffer j =
      mapGet st.makingOffer j) ∧
    (onnegotiationneeded T st r).result.threw = false ∧
    (∀ pc1, T.setLocalDescription pc = some pc1 →
      (onnegotiationneeded T st r).result.acts =
        [.setLocalDescription r, .emit r (.description (T.localDescription pc1))] ∧
      (onnegotiationneeded T st r).result.state =
        { st with
            pcs := mapSet st.pcs r pc1
            makingOffer := mapSet (mapSet st.makingOffer r true) r false }) ∧
    (T.setLocalDescription pc = none →
      (onnegotiationneeded T st r).result.acts = [.setLocalDescription r] ∧
      (onnegotiationneeded T st r).result.state =
        { st with makingOffer := mapSet (mapSet st.makingOffer r true) r false }) ∧
    ((∃ d, Act.emit r (.description d) ∈ (onnegotiationneeded T st r).result.acts) ↔
      (T.setLocalDescription pc).isSome = true) ∧
    (∀ toId data, Act.emit toId data ∈ (onnegotiationneeded T st r).result.acts →
      toId = r) := by
  have haw : (onnegotiationneeded T st r).awaiting =
      { st with makingOffer := mapSet st.makingOffer r true } := by
    simp only [onnegotiationneeded, hlink]
    cases T.setLocalDescription pc <;> rfl
  have hflag : mapGet (onnegotiationneeded T st r).awaiting.makingOffer r = some true := by
    rw [haw]; exact mapGet_mapSet_self _ _ _
  have hign : ∀ d : Description, d.type = .offer → isPolite st.socketId r = false →
      onSignal T (onnegotiationneeded T st r).awaiting r (.description (some d)) =
        ⟨(onnegotiationneeded T st r).awaiting, [], false⟩ := by
    intro d hd hp
    have hlink2 : mapGet (onnegotiationneeded T st r).awaiting.pcs r = some pc := by
      rw [haw]; exact hlink
    have hp2 : isPolite (onnegotiationneeded T st r).awaiting.socketId r = false := by
      rw [haw]; exact hp
    apply onSignal_description_ignored T _ r pc d hlink2
    simp [hp2, hd, hflag]
  refine ⟨hflag, haw, hign, ?_⟩
  cases hl : T.setLocalDescription pc with
  | none =>
    have ho : (onnegotiationneeded T st r).result =
        ⟨{ st with makingOffer := mapSet (mapSet st.makingOffer r true) r false },
          [.setLocalDescription r], false⟩ := by
      simp only [onnegotiationneeded, hlink, hl]
    rw [ho]
    refine ⟨mapGet_mapSet_self _ _ _, ?_, rfl, fun pc1 h => absurd h (by simp),
      fun _ => ⟨rfl, rfl⟩, ?_, ?_⟩
    · intro j hj
      show mapGet (mapSet (mapSet st.makingOffer r true) r false) j = _
      rw [mapGet_mapSet_ne _ _ _ _ hj, mapGet_mapSet_ne _ _ _ _ hj]
    · simp
    · intro toId data hmem
      simp at hmem
  | some pc1 =>
    have ho : (onnegotiationneeded T st r).result =
        ⟨{ st with
            pcs := mapSet st.pcs r pc1
            makingOffer := mapSet (mapSet st.makingOffer r true) r false },
          [.setLocalDescription r, .emit r (.description (T.localDescription pc1))],
          false⟩ := by
      simp only [onnegotiationneeded, hlink, hl]
    rw [ho]
    refine ⟨mapGet_mapSet_self _ _ _, ?_, rfl, ?_, fun h => absurd h (by simp), ?_, ?_⟩
    · intro j hj
      show mapGet (mapSet (mapSet st.makingOffer r true) r false) j = _
      rw [mapGet_mapSet_ne _ _ _ _ hj, mapGet_mapSet_ne _ _ _ _ hj]
    · intro pc2 h
      simp only [Option.some.injEq] at h
      subst h
      exact ⟨rfl, rfl⟩
    · simp
    · intro toId data hmem
      simp at hmem
      exact hmem.1

/-- C18, at a concrete state: while the link of `a` to `b` renegotiates, `makingOffer` is
true for `b`; at the end it is false, and the offer has been emitted. -/
theorem negotiation_trigger_witness :
    mapGet (onnegotiationneeded (jsep "oa" "aa") (offeringClient "a" "b" "oa")
      "b").awaiting.makingOffer "b" = some true ∧
    mapGet (onnegotiationneeded (jsep "oa" "aa") (offeringClient "a" "b" "oa")
      "b").result.state.makingOffer "b" = some false :=
  ⟨(negotiation_trigger (jsep "oa" "aa") (offeringClient "a" "b" "oa") "b"
      ⟨.haveLocalOffer, some ⟨.offer, "oa"⟩, none, none, none, []⟩ (by decide)).1,
    (negotiation_trigger (jsep "oa" "aa") (offeringClient "a" "b" "oa") "b"
      ⟨.haveLocalOffer, some ⟨.offer, "oa"⟩, none, none, none, []⟩ (by decide)).2.2.2.1⟩
end WebRTCMeet
